import Mathlib

/-!
Verification of the packfile parser and object-storage core of the
Joystream/onchain-git repository, as a shallow embedding in Lean 4.

The embedding follows the Go source files:
  * `plumbing/format/packfile/parser.go`  (the two-pass pack parser),
  * `storage/filesystem/object.go`        (the filesystem object storage),
  * `x/gitService/msgs.go`                (reference-update commands).

Code the repository vendors but that is not part of the provided sources
(the pack Scanner, the delta applier `PatchDelta`, the `plumbing`
primitives, the dotgit directory layer, the idx-file decoder and the
delta-base cache) is modelled from the specification; each such
definition says so in its doc comment.
-/

namespace OnchainGit

/-- Object types of `plumbing.ObjectType`: the four real object kinds,
the two on-disk delta kinds, the query wildcard `any` and the invalid
type. -/
inductive ObjectType where
  | commit
  | tree
  | blob
  | tag
  | ofsDelta
  | refDelta
  | anyObject
  | invalid
deriving DecidableEq, Repr

/-- Numeric code of an object type, used to build the injective hash
model. -/
def ObjectType.code : ObjectType → Nat
  | .commit => 1
  | .tree => 2
  | .blob => 3
  | .tag => 4
  | .ofsDelta => 6
  | .refDelta => 7
  | .anyObject => 8
  | .invalid => 0

/-- `ObjectType.IsDelta` from `plumbing`: true exactly for the two
on-disk delta kinds. -/
def ObjectType.IsDelta : ObjectType → Bool
  | .ofsDelta => true
  | .refDelta => true
  | _ => false

/-- A 20-byte identifier, modelled as a natural number; `0` is the
distinguished zero hash meaning "absent". -/
abbrev Hash := Nat

/-- `plumbing.ZeroHash`. -/
def zeroHash : Hash := 0

/-- Byte strings, modelled as lists of naturals. -/
abbrev Bytes := List Nat

/-- Encoding of a byte string into a natural number: base-256 digits
behind a leading sentinel, injective on genuine byte strings. -/
def encodeBytes (bs : Bytes) : Nat :=
  bs.foldl (fun acc b => acc * 256 + b % 256) 1

/-- Modelled from the spec: the SHA-1 primitive is out of scope and
treated as a streaming hasher over the canonical framing
`(type-name, space, decimal-length, NUL, payload)`.  We model it as an
injective function of the type, the declared length and the payload,
arranged to never return the zero hash. -/
def frameHash (t : ObjectType) (size : Nat) (data : Bytes) : Hash :=
  Nat.pair t.code (Nat.pair size (encodeBytes data)) + 1

/-- `getSHA1` of `parser.go`: hash of an object over canonical framing,
where the declared length is the payload length. -/
def getSHA1 (t : ObjectType) (data : Bytes) : Hash :=
  frameHash t data.length data

/-- The error values surfaced by the modelled components.  The named
constructors correspond to the error taxonomy of the source
(`plumbing.ErrObjectNotFound`, `plumbing.ErrInvalidType`,
`ErrReferenceDeltaNotFound`, `ErrNotSeekableSource`, `ErrDeltaNotCached`,
delta-applier corruption, scanner end-of-input); `ioErr` models arbitrary
I/O errors of the opaque filesystem and `custom` models errors returned
by observer callbacks. -/
inductive GError where
  | objectNotFound
  | invalidType
  | referenceDeltaNotFound
  | notSeekableSource
  | deltaNotCached
  | deltaCorruption
  | eof
  | outOfFuel
  | internalError
  | ioErr (n : Nat)
  | custom (n : Nat)
deriving DecidableEq, Repr

instance {ε α : Type} [DecidableEq ε] [DecidableEq α] :
    DecidableEq (Except ε α)
  | .ok a, .ok b =>
    if h : a = b then .isTrue (by rw [h]) else .isFalse (by simp [h])
  | .ok _, .error _ => .isFalse (by simp)
  | .error _, .ok _ => .isFalse (by simp)
  | .error a, .error b =>
    if h : a = b then .isTrue (by rw [h]) else .isFalse (by simp [h])

/-- Modelled from the spec: decoding of the variable-length integers of
the delta applier (7-bit chunks, MSB continuation, least-significant
chunk first).  Returns the decoded value and the remaining bytes, or
`none` on a truncated stream. -/
def decodeVarintAux : Bytes → Nat → Nat → Option (Nat × Bytes)
  | [], _, _ => none
  | b :: rest, shift, acc =>
    let acc' := acc + (b % 128) * 2 ^ shift
    if b < 128 then some (acc', rest)
    else decodeVarintAux rest (shift + 7) acc'

/-- Decode one delta-stream varint from the front of a byte string. -/
def decodeVarint (bs : Bytes) : Option (Nat × Bytes) :=
  decodeVarintAux bs 0 0

/-- Consume one byte when `present`, else produce `0` and leave the
stream untouched; `none` on a truncated stream.  Used by the copy
opcode of the delta applier. -/
def takeByteIf (present : Bool) (bs : Bytes) : Option (Nat × Bytes) :=
  if present then
    match bs with
    | [] => none
    | b :: r => some (b, r)
  else some (0, bs)

/-- Modelled from the spec (delta applier, §4.2): run the copy/insert
opcode stream against `base`, accumulating the output.  `fuel` bounds
the recursion; every step consumes at least one byte, so fuel equal to
the stream length always suffices. -/
def applyOps (base : Bytes) : Nat → Bytes → Bytes → Option Bytes
  | _, [], out => some out
  | 0, _ :: _, _ => none
  | fuel + 1, cmd :: rest, out =>
    if 128 ≤ cmd then
      match takeByteIf (cmd.testBit 0) rest with
      | none => none
      | some (o0, r) =>
      match takeByteIf (cmd.testBit 1) r with
      | none => none
      | some (o1, r) =>
      match takeByteIf (cmd.testBit 2) r with
      | none => none
      | some (o2, r) =>
      match takeByteIf (cmd.testBit 3) r with
      | none => none
      | some (o3, r) =>
      match takeByteIf (cmd.testBit 4) r with
      | none => none
      | some (s0, r) =>
      match takeByteIf (cmd.testBit 5) r with
      | none => none
      | some (s1, r) =>
      match takeByteIf (cmd.testBit 6) r with
      | none => none
      | some (s2, r) =>
        let off := o0 + o1 * 256 + o2 * 65536 + o3 * 16777216
        let sz0 := s0 + s1 * 256 + s2 * 65536
        let sz := if sz0 = 0 then 65536 else sz0
        if off + sz ≤ base.length then
          applyOps base fuel r (out ++ ((base.drop off).take sz))
        else none
    else if cmd = 0 then none
    else
      if cmd ≤ rest.length then
        applyOps base fuel (rest.drop cmd) (out ++ rest.take cmd)
      else none

/-- Modelled from the spec (delta applier, §4.2): `PatchDelta` reads the
declared base length (must equal `base.length`), the declared result
length, applies the opcode stream, and demands the output length match
the declared result length exactly; every violation is reported as
delta corruption. -/
def patchDelta (base delta : Bytes) : Except GError Bytes :=
  match decodeVarint delta with
  | none => .error .deltaCorruption
  | some (srcLen, r1) =>
    if srcLen ≠ base.length then .error .deltaCorruption
    else
      match decodeVarint r1 with
      | none => .error .deltaCorruption
      | some (resLen, r2) =>
        match applyOps base r2.length r2 [] with
        | none => .error .deltaCorruption
        | some out =>
          if out.length = resLen then .ok out else .error .deltaCorruption

end OnchainGit

namespace OnchainGit.GitService

/-- `UpdateReferenceCommand` of `x/gitService/msgs.go`: how to update a
named reference, from an old hash to a new one. -/
structure UpdateReferenceCommand where
  name : String
  old : Hash
  new : Hash
deriving DecidableEq, Repr

/-- `UpdateReferenceAction` of `x/gitService/msgs.go`. -/
inductive UpdateReferenceAction where
  | create
  | update
  | delete
  | invalid
deriving DecidableEq, Repr

/-- `(*UpdateReferenceCommand).Action` of `x/gitService/msgs.go`:
classifies the command by which of its hashes are the zero hash. -/
def UpdateReferenceCommand.Action (c : UpdateReferenceCommand) :
    UpdateReferenceAction :=
  if c.old = zeroHash && c.new = zeroHash then .invalid
  else if c.old = zeroHash then .create
  else if c.new = zeroHash then .delete
  else .update

/-- `(*UpdateReferenceCommand).validate` of `x/gitService/msgs.go`:
returns an error ("Malformed command") exactly on the invalid action.
We model the returned `error` as an `Option String`. -/
def UpdateReferenceCommand.validate (c : UpdateReferenceCommand) :
    Option String :=
  if c.Action = .invalid then some "Malformed command" else none

end OnchainGit.GitService

namespace OnchainGit.Packfile

open OnchainGit

/-- How a pack entry names its base: a non-delta entry carries its
object type; an OFS delta carries the absolute offset of its base (the
Scanner resolves the stored negative distance against the entry's own
offset, which is how the parser can look `OffsetReference` up directly
in `oiByOffset`); a REF delta carries the 20-byte base hash. -/
inductive EntryKind where
  | base (t : ObjectType)
  | ofs (baseOff : Nat)
  | ref (h : Hash)
deriving DecidableEq, Repr

/-- One pack entry as the Scanner delivers it: absolute offset, kind,
the inflated payload bytes and the CRC32 of the compressed bytes. -/
structure PEntry where
  offset : Nat
  kind : EntryKind
  data : Bytes
  crc : Nat
deriving DecidableEq, Repr

/-- The declared inflated length of an entry.  zlib inflation is out of
scope (spec §1), so the declared length always agrees with the payload
length in this model. -/
def PEntry.length (e : PEntry) : Nat := e.data.length

/-- The disk object type of an entry, as `NextObjectHeader` reports
it. -/
def PEntry.diskType (e : PEntry) : ObjectType :=
  match e.kind with
  | .base t => t
  | .ofs _ => .ofsDelta
  | .ref _ => .refDelta

/-- Modelled from the spec (Scanner, §4.1): a pack as seen through the
Scanner.  `count` is the object count of the pack header, `entries` the
per-object headers with their inflated payloads, `checksum` the 20-byte
trailer, and `seekable` the immutable `IsSeekable` attribute of the
source. -/
structure PackSrc where
  count : Nat
  entries : List PEntry
  checksum : Hash
  seekable : Bool
deriving DecidableEq, Repr

/-- `objectInfo` of `parser.go`.  Nodes live in an arena; `parent` and
`children` are arena indices, which mirrors the pointer graph of the
source (placeholder parents are ordinary arena entries flagged
`externalRef`). -/
structure ObjInfo where
  offset : Nat
  length : Nat
  typ : ObjectType
  diskType : ObjectType
  externalRef : Bool
  crc32 : Nat
  parent : Option Nat
  children : List Nat
  sha1 : Hash
deriving DecidableEq, Repr

instance : Inhabited ObjInfo :=
  ⟨⟨0, 0, .invalid, .invalid, false, 0, none, [], zeroHash⟩⟩

/-- `newDeltaObject` of `parser.go`. -/
def newDeltaObject (offset length : Nat) (t : ObjectType)
    (parent : Option Nat) : ObjInfo :=
  { offset := offset, length := length, typ := t, diskType := t,
    externalRef := false, crc32 := 0, parent := parent, children := [],
    sha1 := zeroHash }

/-- `newBaseObject` of `parser.go`. -/
def newBaseObject (offset length : Nat) (t : ObjectType) : ObjInfo :=
  newDeltaObject offset length t none

/-- `objectInfo.IsDelta`: tests the resolved type. -/
def ObjInfo.IsDelta (o : ObjInfo) : Bool := o.typ.IsDelta

/-- Models `storer.EncodedObjectStorer` (an interface whose
implementations are outside the provided sources) by an in-memory
content-addressed store: a map from hash to object type and payload. -/
structure MemStorage where
  objs : List (Hash × ObjectType × Bytes)
deriving DecidableEq, Repr

/-- `EncodedObject(AnyObject, h)` against the in-memory store: look the
hash up, failing with the object-not-found error. -/
def MemStorage.encodedObject (st : MemStorage) (h : Hash) :
    Except GError (ObjectType × Bytes) :=
  match st.objs.lookup h with
  | some tb => .ok tb
  | none => .error .objectNotFound

/-- `SetEncodedObject` against the in-memory store: key the object by
its canonical hash.  The `MemoryObject`s the parser writes carry their
payload length as size, so the key is `getSHA1`. -/
def MemStorage.setEncodedObject (st : MemStorage) (t : ObjectType)
    (data : Bytes) : Hash × MemStorage :=
  let h := getSHA1 t data
  (h, ⟨(h, t, data) :: st.objs⟩)

/-- The events delivered to observers (`Observer` interface of
`parser.go`). -/
inductive PEvent where
  | onHeader (count : Nat)
  | onInflatedObjectHeader (t : ObjectType) (objSize : Nat) (pos : Nat)
  | onInflatedObjectContent (h : Hash) (pos : Nat) (crc : Nat) (content : Bytes)
  | onFooter (h : Hash)
deriving DecidableEq, Repr

/-- An observer, as a pure response function: `none` accepts the event,
`some e` rejects it with error `e`. -/
abbrev Observer := PEvent → Option GError

/-- `forEachObserver` of `parser.go`: deliver the event to each observer
in registration order; the first error wins. -/
def combineObs (obs : List Observer) (e : PEvent) : Option GError :=
  match obs with
  | [] => none
  | o :: rest =>
    match o e with
    | some err => some err
    | none => combineObs rest e

/-- The parser state: the fields of `Parser` in `parser.go`, with the
pointer graph as an arena (`nodes`), Go maps as association lists, the
delta-base LRU as a map (the spec's bounded LRU with the capacity taken
large enough never to evict — no claim depends on eviction), and the
sequence of events emitted to observers recorded in `trace`. -/
structure PState where
  storage : Option MemStorage
  count : Nat
  nodes : List ObjInfo
  oi : List Nat
  oiByHash : List (Hash × Nat)
  oiByOffset : List (Nat × Nat)
  checksum : Hash
  cache : List (Nat × Bytes)
  deltas : Option (List (Nat × Bytes))
  trace : List PEvent
deriving DecidableEq, Repr

/-- Fetch an arena node. -/
def getNode (s : PState) (i : Nat) : ObjInfo := (s.nodes[i]?).getD default

/-- Update an arena node in place. -/
def updNode (ns : List ObjInfo) (i : Nat) (f : ObjInfo → ObjInfo) :
    List ObjInfo :=
  match ns[i]? with
  | none => ns
  | some o => ns.set i (f o)

/-- Go map assignment `m[k] = v`. -/
def mapPut (k : Nat) (v : Bytes) (m : List (Nat × Bytes)) :
    List (Nat × Bytes) := (k, v) :: m

/-- Go map deletion `delete(m, k)`. -/
def mapDel (k : Nat) (m : List (Nat × Bytes)) : List (Nat × Bytes) :=
  m.filter (fun kv => kv.1 ≠ k)

/-- Results of a parser phase: either a value with the updated state,
or an error paired with the state at the moment of the abort (so that
the emitted trace stays observable). -/
abbrev PRes (α : Type) := Except (GError × PState) (α × PState)

/-- Emit one event: record it in the trace, then deliver it to the
observers; the first observer error aborts with that error. -/
def emit (obs : List Observer) (e : PEvent) (s : PState) : PRes Unit :=
  let s' := { s with trace := s.trace ++ [e] }
  match combineObs obs e with
  | none => .ok ((), s')
  | some err => .error (err, s')

/-- `NewParserWithStorage` of `parser.go`: fails with the
not-seekable-source error when the scanner is not seekable and no
storage is given; otherwise builds the initial parser state, allocating
the `deltas` map exactly when the scanner is not seekable (`none`
models Go's nil map). -/
def newParserWithStorage (pk : PackSrc) (storage : Option MemStorage) :
    Except GError PState :=
  if !pk.seekable && storage.isNone then .error .notSeekableSource
  else
    .ok { storage := storage, count := 0, nodes := [], oi := [],
          oiByHash := [], oiByOffset := [], checksum := zeroHash,
          cache := [],
          deltas := if !pk.seekable then some [] else none,
          trace := [] }

/-- `NewParser` of `parser.go`: construction without a storage. -/
def newParser (pk : PackSrc) : Except GError PState :=
  newParserWithStorage pk none

/-- `(*Parser).init`: read the pack header, emit `OnHeader(count)` to
the observers, then allocate the object-info containers. -/
def pInit (pk : PackSrc) (obs : List Observer) (s : PState) : PRes Unit :=
  match emit obs (.onHeader pk.count) s with
  | .error es => .error es
  | .ok ((), s') =>
    .ok ((), { s' with count := pk.count, oi := [], oiByHash := [],
                       oiByOffset := [] })

/-- One iteration of the `indexObjects` loop of `parser.go`: read the
`i`-th object header, classify it (OFS delta / REF delta / base), wire
the delta graph, hash and optionally store base objects, and cache
delta payloads when the source is not seekable. -/
def indexStep (pk : PackSrc) (i : Nat) (s : PState) :
    Except GError PState :=
  match pk.entries[i]? with
  | none => .error .eof
  | some oh =>
    let data := oh.data
    match oh.kind with
    | .ofs baseOff =>
      match s.oiByOffset.lookup baseOff with
      | none => .error .objectNotFound
      | some parentIdx =>
        let idx := s.nodes.length
        let ota := { newDeltaObject oh.offset oh.length .ofsDelta
                       (some parentIdx) with crc32 := oh.crc }
        let nodes := updNode s.nodes parentIdx
          (fun p => { p with children := p.children ++ [idx] }) ++ [ota]
        let deltas :=
          if !pk.seekable then (s.deltas.getD []).cons (oh.offset, data) |> some
          else s.deltas
        .ok { s with nodes := nodes,
                     oiByOffset := (oh.offset, idx) :: s.oiByOffset,
                     oi := s.oi ++ [idx],
                     deltas := deltas }
    | .ref refH =>
      match s.oiByHash.lookup refH with
      | some parentIdx =>
        let idx := s.nodes.length
        let ota := { newDeltaObject oh.offset oh.length .refDelta
                       (some parentIdx) with crc32 := oh.crc }
        let nodes := updNode s.nodes parentIdx
          (fun p => { p with children := p.children ++ [idx] }) ++ [ota]
        let deltas :=
          if !pk.seekable then (s.deltas.getD []).cons (oh.offset, data) |> some
          else s.deltas
        .ok { s with nodes := nodes,
                     oiByOffset := (oh.offset, idx) :: s.oiByOffset,
                     oi := s.oi ++ [idx],
                     deltas := deltas }
      | none =>
        let phIdx := s.nodes.length
        let idx := phIdx + 1
        let ph : ObjInfo :=
          { offset := 0, length := 0, typ := .anyObject,
            diskType := .anyObject, externalRef := true, crc32 := 0,
            parent := none, children := [idx], sha1 := refH }
        let ota := { newDeltaObject oh.offset oh.length .refDelta
                       (some phIdx) with crc32 := oh.crc }
        let nodes := s.nodes ++ [ph, ota]
        let deltas :=
          if !pk.seekable then (s.deltas.getD []).cons (oh.offset, data) |> some
          else s.deltas
        .ok { s with nodes := nodes,
                     oiByHash := (refH, phIdx) :: s.oiByHash,
                     oiByOffset := (oh.offset, idx) :: s.oiByOffset,
                     oi := s.oi ++ [idx],
                     deltas := deltas }
    | .base t =>
      let idx := s.nodes.length
      let sha1 := getSHA1 t data
      let ota := { newBaseObject oh.offset oh.length t with
                     crc32 := oh.crc, sha1 := sha1 }
      let storage :=
        match s.storage with
        | none => s.storage
        | some st => some (st.setEncodedObject t data).2
      .ok { s with nodes := s.nodes ++ [ota],
                   oiByHash := (sha1, idx) :: s.oiByHash,
                   oiByOffset := (oh.offset, idx) :: s.oiByOffset,
                   oi := s.oi ++ [idx],
                   storage := storage }

/-- Run `indexStep` for indices `i, i+1, …` while `rem` counts down. -/
def indexFrom (pk : PackSrc) : Nat → Nat → PState → Except GError PState
  | _, 0, s => .ok s
  | i, rem + 1, s =>
    match indexStep pk i s with
    | .error e => .error e
    | .ok s' => indexFrom pk (i + 1) rem s'

/-- `(*Parser).indexObjects`: the index pass over all `count`
objects. -/
def indexObjects (pk : PackSrc) (s : PState) : Except GError PState :=
  indexFrom pk 0 s.count s

/-- `(*Parser).readData`: for a delta on a non-seekable source, serve
the payload from the `deltas` map (failing with delta-not-cached);
otherwise seek to the entry's offset, re-read its header and re-inflate
its payload (seeking a non-seekable source is an I/O error). -/
def pReadData (pk : PackSrc) (i : Nat) (s : PState) :
    Except GError Bytes :=
  let o := getNode s i
  if !pk.seekable && o.diskType.IsDelta then
    match (s.deltas.getD []).lookup o.offset with
    | some d => .ok d
    | none => .error .deltaNotCached
  else if !pk.seekable then .error (.ioErr 0)
  else
    match pk.entries.find? (fun e => e.offset = o.offset) with
    | none => .error .eof
    | some e => .ok e.data

/-- `applyPatchBase` of `parser.go`: patch the delta against its base;
on the first reconstruction (zero hash) propagate the parent's type,
compute the canonical hash and record the reconstructed length. -/
def pApplyPatchBase (i : Nat) (data base : Bytes) (s : PState) :
    Except (GError × PState) (Bytes × PState) :=
  match patchDelta base data with
  | .error e => .error (e, s)
  | .ok patched =>
    let o := getNode s i
    if o.sha1 = zeroHash then
      match o.parent with
      | none => .error (.internalError, s)
      | some pIdx =>
        let t := (getNode s pIdx).typ
        let sha1 := getSHA1 t patched
        let nodes := updNode s.nodes i
          (fun n => { n with typ := t, sha1 := sha1,
                             length := patched.length })
        .ok (patched, { s with nodes := nodes })
    else .ok (patched, s)

/-- `(*Parser).resolveObject`: read the raw delta bytes, apply them
against the base, and persist the reconstruction when a storage is
attached.  Non-delta nodes return an empty result (Go returns
`nil, nil`). -/
def pResolveObject (pk : PackSrc) (i : Nat) (base : Bytes) (s : PState) :
    Except (GError × PState) (Bytes × PState) :=
  let o := getNode s i
  if !o.diskType.IsDelta then .ok ([], s)
  else
    match pReadData pk i s with
    | .error e => .error (e, s)
    | .ok data =>
      match pApplyPatchBase i data base s with
      | .error es => .error es
      | .ok (patched, s') =>
        match s'.storage with
        | none => .ok (patched, s')
        | some st =>
          let o' := getNode s' i
          let st' := (st.setEncodedObject o'.typ patched).2
          .ok (patched, { s' with storage := some st' })

/-- `(*Parser).get`: reconstruct the content of a node, probing the
delta-base cache, then the attached storage (how placeholders are
satisfied), failing unresolved placeholders with the
reference-delta-not-found error, recursing through the delta parent, or
re-reading raw data; reconstructions that other nodes depend on are
cached.  `fuel` bounds the parent recursion; parents always have
smaller arena indices, so fuel exceeding the arena size suffices. -/
def pGet (pk : PackSrc) : Nat → Nat → PState →
    Except (GError × PState) (Bytes × PState)
  | 0, _, s => .error (.outOfFuel, s)
  | fuel + 1, i, s =>
    let o := getNode s i
    let cached : Option Bytes :=
      if o.externalRef then none else s.cache.lookup o.offset
    match cached with
    | some b => .ok (b, s)
    | none =>
      let viaStorage : Except (GError × PState) (Option (Bytes × PState)) :=
        match s.storage with
        | some st =>
          if !o.typ.IsDelta then
            match st.encodedObject o.sha1 with
            | .error e => .error (e, s)
            | .ok (t, bytes) =>
              let nodes := updNode s.nodes i (fun n => { n with typ := t })
              .ok (some (bytes, { s with nodes := nodes }))
          else .ok none
        | none => .ok none
      match viaStorage with
      | .error es => .error es
      | .ok (some (b, s')) => .ok (b, s')
      | .ok none =>
        if o.externalRef then .error (.referenceDeltaNotFound, s)
        else
          let dataRes : Except (GError × PState) (Bytes × PState) :=
            if o.diskType.IsDelta then
              match o.parent with
              | none => .error (.internalError, s)
              | some pIdx =>
                match pGet pk fuel pIdx s with
                | .error es => .error es
                | .ok (base, s1) =>
                  pResolveObject pk i base s1
            else
              match pReadData pk i s with
              | .error e => .error (e, s)
              | .ok d => .ok (d, s)
          match dataRes with
          | .error es => .error es
          | .ok (data, s2) =>
            let o2 := getNode s2 i
            if 0 < o2.children.length then
              .ok (data, { s2 with cache := mapPut o2.offset data s2.cache })
            else .ok (data, s2)

/-- The children loop of `resolveDeltas`: resolve each direct child of
a non-delta node against the node's content. -/
def resolveChildren (pk : PackSrc) (base : Bytes) :
    List Nat → PState → Except (GError × PState) PState
  | [], s => .ok s
  | c :: rest, s =>
    match pResolveObject pk c base s with
    | .error es => .error es
    | .ok (_, s') => resolveChildren pk base rest s'

/-- One iteration of the `resolveDeltas` loop of `parser.go`: obtain
the node's content, emit the header/content observer events, resolve
the children of non-delta nodes, and drop the node's cached delta
payload (non-seekable source, disk-delta node) once its children are
handled. -/
def resolveStep (pk : PackSrc) (obs : List Observer) (i : Nat)
    (s : PState) : PRes Unit :=
  match pGet pk (s.nodes.length + 1) i s with
  | .error es => .error es
  | .ok (content, s1) =>
    let o := getNode s1 i
    match emit obs (.onInflatedObjectHeader o.typ o.length o.offset) s1 with
    | .error es => .error es
    | .ok ((), s2) =>
      match emit obs (.onInflatedObjectContent o.sha1 o.offset o.crc32 content) s2 with
      | .error es => .error es
      | .ok ((), s3) =>
        let o3 := getNode s3 i
        if !o3.IsDelta && 0 < o3.children.length then
          match resolveChildren pk content o3.children s3 with
          | .error es => .error es
          | .ok s4 =>
            if o3.diskType.IsDelta && !pk.seekable then
              .ok ((), { s4 with
                deltas := some (mapDel o3.offset (s4.deltas.getD [])) })
            else .ok ((), s4)
        else .ok ((), s3)

/-- Iterate `resolveStep` over a list of arena indices. -/
def resolveLoop (pk : PackSrc) (obs : List Observer) :
    List Nat → PState → PRes Unit
  | [], s => .ok ((), s)
  | i :: rest, s =>
    match resolveStep pk obs i s with
    | .error es => .error es
    | .ok ((), s') => resolveLoop pk obs rest s'

/-- `(*Parser).resolveDeltas`: the resolve pass, in index order over
`p.oi`. -/
def resolveDeltas (pk : PackSrc) (obs : List Observer) (s : PState) :
    PRes Unit :=
  resolveLoop pk obs s.oi s

/-- `(*Parser).Parse` from a constructed parser state: init (header +
`OnHeader`), index pass, trailer checksum, resolve pass, and the final
`OnFooter`; the pack checksum is returned. -/
def Parse (pk : PackSrc) (obs : List Observer) (s : PState) :
    Except (GError × PState) (Hash × PState) :=
  match pInit pk obs s with
  | .error es => .error es
  | .ok ((), s1) =>
    match indexObjects pk s1 with
    | .error e => .error (e, s1)
    | .ok s2 =>
      let s2 := { s2 with checksum := pk.checksum }
      match resolveDeltas pk obs s2 with
      | .error es => .error es
      | .ok ((), s3) =>
        match emit obs (.onFooter s3.checksum) s3 with
        | .error es => .error es
        | .ok ((), s4) => .ok (s4.checksum, s4)

end OnchainGit.Packfile

namespace OnchainGit.Storage

open OnchainGit

/-- An encoded object as handed across the storage API
(`plumbing.EncodedObject` / `MemoryObject`, modelled from the spec):
type, declared size and payload.  The same shape models a loose object
file, whose header carries the declared size. -/
structure GitObj where
  t : ObjectType
  size : Nat
  payload : Bytes
deriving DecidableEq, Repr

/-- `MemoryObject.Hash`, modelled from the spec: the canonical content
hash of the object (type, payload length, payload). -/
def GitObj.hash (o : GitObj) : Hash := getSHA1 o.t o.payload

/-- Result of `dir.Object(h)` (the dotgit loose-object probe, modelled
from the spec): the opened file, a does-not-exist error, or any other
I/O error. -/
inductive DirObjResult where
  | found (o : GitObj)
  | notExist
  | ioErr (n : Nat)
deriving DecidableEq, Repr

/-- A stored pack entry, modelled from the spec: a base object, or a
delta naming its base by absolute offset or by hash. -/
inductive PackEntryM where
  | base (t : ObjectType) (payload : Bytes)
  | ofsDelta (baseOff : Nat) (deltaData : Bytes)
  | refDelta (baseHash : Hash) (deltaData : Bytes)
deriving DecidableEq, Repr

/-- Modelled from the spec (pack index §4.4 and `packfile.Packfile`):
an indexed pack as the storage reads it: the hash↔offset index and the
entries by offset, with payloads already inflated (zlib is out of
scope). -/
structure PackFileM where
  idx : List (Hash × Nat)
  entries : List (Nat × PackEntryM)
deriving DecidableEq, Repr

/-- `idx.FindOffset`. -/
def PackFileM.findOffset (p : PackFileM) (h : Hash) : Option Nat :=
  p.idx.lookup h

/-- `idx.FindHash`. -/
def PackFileM.findHash (p : PackFileM) (off : Nat) : Option Hash :=
  (p.idx.find? (fun e => e.2 = off)).map (fun e => e.1)

/-- Modelled from the spec: `packfile.Packfile` random-access object
reconstruction at an offset — follow the delta chain to its base,
applying each delta; the resolved type is the chain root's type.
`fuel` bounds the chain recursion. -/
def getByOffset (p : PackFileM) : Nat → Nat → Except GError GitObj
  | 0, _ => .error .outOfFuel
  | fuel + 1, off =>
    match p.entries.lookup off with
    | none => .error .objectNotFound
    | some (.base t payload) => .ok ⟨t, payload.length, payload⟩
    | some (.ofsDelta bOff dd) =>
      match getByOffset p fuel bOff with
      | .error e => .error e
      | .ok b =>
        match patchDelta b.payload dd with
        | .error e => .error e
        | .ok out => .ok ⟨b.t, out.length, out⟩
    | some (.refDelta bh dd) =>
      match p.idx.lookup bh with
      | none => .error .objectNotFound
      | some bOff =>
        match getByOffset p fuel bOff with
        | .error e => .error e
        | .ok b =>
          match patchDelta b.payload dd with
          | .error e => .error e
          | .ok out => .ok ⟨b.t, out.length, out⟩

/-- The declared result length of a delta instruction stream: its
second varint. -/
def deltaResultLen (dd : Bytes) : Except GError Nat :=
  match decodeVarint dd with
  | none => .error .deltaCorruption
  | some (_, r1) =>
    match decodeVarint r1 with
    | none => .error .deltaCorruption
    | some (res, _) => .ok res

/-- Modelled from the spec: `packfile.Packfile.GetSizeByOffset` returns
the plaintext size without materialising payloads — a base entry's
payload length, or a delta's declared result length. -/
def getSizeByOffset (p : PackFileM) (off : Nat) : Except GError Nat :=
  match p.entries.lookup off with
  | none => .error .objectNotFound
  | some (.base _ payload) => .ok payload.length
  | some (.ofsDelta _ dd) => deltaResultLen dd
  | some (.refDelta _ dd) => deltaResultLen dd

/-- Modelled from the spec (dotgit, §6): an object directory — loose
objects by hash, hashes whose loose probe raises a non-not-found I/O
error, the packs with their indexes, and the alternate directories
named by `info/alternates`. -/
inductive DotGit where
  | mk (loose : List (Hash × GitObj))
       (looseErr : List (Hash × Nat))
       (packs : List (Hash × PackFileM))
       (alternates : List DotGit)

def DotGit.loose : DotGit → List (Hash × GitObj)
  | .mk l _ _ _ => l

def DotGit.looseErr : DotGit → List (Hash × Nat)
  | .mk _ e _ _ => e

def DotGit.packs : DotGit → List (Hash × PackFileM)
  | .mk _ _ p _ => p

def DotGit.alternates : DotGit → List DotGit
  | .mk _ _ _ a => a

/-- `dir.Object(h)`: the loose-object probe. -/
def DotGit.object (dg : DotGit) (h : Hash) : DirObjResult :=
  match dg.looseErr.lookup h with
  | some n => .ioErr n
  | none =>
    match dg.loose.lookup h with
    | some o => .found o
    | none => .notExist

/-- Write a loose object file under a key (the hash of the written
bytes). -/
def DotGit.addLoose (dg : DotGit) (k : Hash) (o : GitObj) : DotGit :=
  match dg with
  | .mk l e p a => .mk ((k, o) :: l) e p a

/-- `ObjectStorage` of `storage/filesystem/object.go`: the object
directory and the delta-base cache.  The lazily-populated pack-index
map `s.index` is modelled by its populated content, `dir.packs`
(`requireIndex` always succeeds in this model; `Reindex`/laziness is
unobservable to the verified claims). -/
structure ObjectStorage where
  dir : DotGit
  cache : List (Hash × GitObj)

/-- `findObjectInPackfile`: scan the pack-index map for the hash; the
`none` result models the `-1` offset.  Go iterates a map in
unspecified order; the list order realises one admissible order. -/
def findObjectInPackfile (s : ObjectStorage) (h : Hash) :
    Option (PackFileM × Nat) :=
  match s.dir.packs.find? (fun pr => (pr.2.findOffset h).isSome) with
  | none => none
  | some pr =>
    match pr.2.findOffset h with
    | none => none
    | some off => some (pr.2, off)

/-- `encodedObjectSizeFromUnpacked`: read the loose header and return
its declared size. -/
def encodedObjectSizeFromUnpacked (s : ObjectStorage) (h : Hash) :
    Except GError Nat :=
  match s.dir.object h with
  | .notExist => .error .objectNotFound
  | .ioErr n => .error (.ioErr n)
  | .found o => .ok o.size

/-- `encodedObjectSizeFromPackfile`: find the pack holding the hash,
serve the size from the delta-base cache when the reverse index lookup
hits a cached object, else walk the pack entry's declared sizes. -/
def encodedObjectSizeFromPackfile (s : ObjectStorage) (h : Hash) :
    Except GError Nat :=
  match findObjectInPackfile s h with
  | none => .error .objectNotFound
  | some (p, off) =>
    let viaCache : Option Nat :=
      match p.findHash off with
      | some hash =>
        match s.cache.lookup hash with
        | some obj => some obj.size
        | none => none
      | none => none
    match viaCache with
    | some sz => .ok sz
    | none => getSizeByOffset p off

/-- `EncodedObjectSize` of `object.go`: loose first; any error other
than not-found aborts; otherwise fall back to the packs.  Alternates
are never consulted. -/
def EncodedObjectSize (s : ObjectStorage) (h : Hash) :
    Except GError Nat :=
  match encodedObjectSizeFromUnpacked s h with
  | .ok sz => .ok sz
  | .error .objectNotFound => encodedObjectSizeFromPackfile s h
  | .error e => .error e

/-- `getFromUnpacked`: read a loose object file — its header type and
size, and its payload. -/
def getFromUnpacked (dg : DotGit) (h : Hash) : Except GError GitObj :=
  match dg.object h with
  | .notExist => .error .objectNotFound
  | .ioErr n => .error (.ioErr n)
  | .found o => .ok o

/-- `decodeObjectAt`: reverse-look the offset up in the index; a cache
hit under that hash serves the object, otherwise reconstruct from the
pack. -/
def decodeObjectAt (cache : List (Hash × GitObj)) (p : PackFileM)
    (off : Nat) : Except GError GitObj :=
  match p.findHash off with
  | some hash =>
    match cache.lookup hash with
    | some obj => .ok obj
    | none => getByOffset p (p.entries.length + 1) off
  | none => getByOffset p (p.entries.length + 1) off

/-- `getFromPackfile` (the `canBeDelta = false` path used by
`EncodedObject`): find the object's pack and offset and decode there. -/
def getFromPackfile (dg : DotGit) (cache : List (Hash × GitObj))
    (h : Hash) : Except GError GitObj :=
  match findObjectInPackfile ⟨dg, cache⟩ h with
  | none => .error .objectNotFound
  | some (p, off) => decodeObjectAt cache p off

mutual

/-- `EncodedObject` of `object.go`, over a directory and the shared
delta-base cache: loose, then packs; if still not found, each alternate
is consulted in turn as an independent object storage with the same
cache, the first success being returned as-is; when everything misses,
the not-found error stands; any non-not-found error from the local
probes aborts; finally the type filter is applied to locally-found
objects. -/
def encodedObjectD : DotGit → List (Hash × GitObj) → ObjectType →
    Hash → Except GError GitObj
  | .mk l e p alts, cache, t, h =>
    let dg : DotGit := .mk l e p alts
    let r0 := getFromUnpacked dg h
    let r1 :=
      match r0 with
      | .error .objectNotFound => getFromPackfile dg cache h
      | _ => r0
    match r1 with
    | .error .objectNotFound =>
      match tryAlternates cache t h alts with
      | some obj => .ok obj
      | none => .error .objectNotFound
    | .error err => .error err
    | .ok obj =>
      if t ≠ .anyObject && obj.t ≠ t then .error .objectNotFound
      else .ok obj

/-- The alternates loop of `EncodedObject`: each alternate is probed in
order; any failure — of any kind — moves on to the next alternate; the
first success is returned. -/
def tryAlternates (cache : List (Hash × GitObj)) (t : ObjectType)
    (h : Hash) : List DotGit → Option GitObj
  | [] => none
  | dg :: rest =>
    match encodedObjectD dg cache t h with
    | .ok obj => some obj
    | .error _ => tryAlternates cache t h rest

end

/-- `EncodedObject` on an `ObjectStorage`. -/
def EncodedObject (s : ObjectStorage) (t : ObjectType) (h : Hash) :
    Except GError GitObj :=
  encodedObjectD s.dir s.cache t h

/-- `HasEncodedObject` of `object.go`: probe the loose directory, then
the local pack indexes; alternates are never consulted; `none` models
the nil error (the object exists). -/
def HasEncodedObject (s : ObjectStorage) (h : Hash) : Option GError :=
  match s.dir.object h with
  | .found _ => none
  | .ioErr n => some (.ioErr n)
  | .notExist =>
    match findObjectInPackfile s h with
    | none => some .objectNotFound
    | some _ => none

/-- `SetEncodedObject` of `object.go`: reject the two delta types with
the zero hash and the invalid-type error, leaving the directory
untouched; otherwise write a loose object file carrying the object's
header (type and declared size) and payload, and return the object's
hash. -/
def SetEncodedObject (s : ObjectStorage) (o : GitObj) :
    Hash × Option GError × ObjectStorage :=
  if o.t = .ofsDelta || o.t = .refDelta then
    (zeroHash, some .invalidType, s)
  else
    (o.hash, none,
     { s with dir := s.dir.addLoose (frameHash o.t o.size o.payload) o })

end OnchainGit.Storage

namespace OnchainGit.Packfile

open OnchainGit

instance : Inhabited PState :=
  ⟨⟨none, 0, [], [], [], [], zeroHash, [], none, []⟩⟩

/-- The payload `"hello\x5cn"` of the worked scenarios. -/
def helloBytes : Bytes := [104, 101, 108, 108, 111, 10]

/-- The payload `" world\x5cn"`. -/
def worldBytes : Bytes := [32, 119, 111, 114, 108, 100, 10]

/-- The delta script of scenario S1: declared base length 6, declared
result length 13, `copy(0,6)` then `insert(" world\x5cn")`. -/
def deltaScript : Bytes := [6, 13, 144, 6, 7] ++ worldBytes

/-- Scenario S1 as a pack source: a base blob followed by an OFS delta
against it, with the given seekability. -/
def packS1 (seek : Bool) : PackSrc :=
  { count := 2,
    entries := [⟨12, .base .blob, helloBytes, 11⟩,
                ⟨33, .ofs 12, deltaScript, 22⟩],
    checksum := 999, seekable := seek }

/-- A pack whose second entry is an OFS delta naming an absolute base
offset (999) at which no object was indexed. -/
def packOfsBad : PackSrc :=
  { count := 2,
    entries := [⟨12, .base .blob, helloBytes, 11⟩,
                ⟨33, .ofs 999, deltaScript, 22⟩],
    checksum := 999, seekable := true }

/-- Scenario S3: a seekable thin pack holding a single REF delta whose
base hash is absent from the pack. -/
def thinPack (off : Nat) (refH : Hash) (dd : Bytes) (crc cs : Nat) :
    PackSrc :=
  { count := 1, entries := [⟨off, .ref refH, dd, crc⟩],
    checksum := cs, seekable := true }

/-- The canonical hash of the `"hello\x5cn"` blob. -/
def hHello : Hash := getSHA1 .blob helloBytes

/-- A storage holding exactly the external base blob of scenario S3. -/
def stHello : MemStorage := ⟨[(hHello, .blob, helloBytes)]⟩

/-- The parser state after construction, header, index pass and
checksum, ready for the resolve pass (`default` on any failure). -/
def afterIndex (pk : PackSrc) (stor : Option MemStorage) : PState :=
  match newParserWithStorage pk stor with
  | .error _ => default
  | .ok s0 =>
    match pInit pk [] s0 with
    | .error _ => default
    | .ok ((), s1) =>
      match indexObjects pk s1 with
      | .error _ => default
      | .ok s2 => { s2 with checksum := pk.checksum }

/-- The final parser state of the resolve pass over the non-seekable S1
pack backed by an empty storage (`default` on failure). -/
def s1nsFinal : PState :=
  match resolveDeltas (packS1 false) [] (afterIndex (packS1 false) (some ⟨[]⟩)) with
  | .ok ((), s) => s
  | .error _ => default

/-- Parser state after constructing over `packOfsBad` without
storage. -/
def c7s0 : PState :=
  match newParserWithStorage packOfsBad none with
  | .ok s => s
  | .error _ => default

/-- Parser state of the `packOfsBad` run after `init`. -/
def c7s1 : PState :=
  match pInit packOfsBad [] c7s0 with
  | .ok (_, s) => s
  | .error _ => default

/-- Parser state of the `packOfsBad` run after indexing the first
entry. -/
def c7sMid : PState :=
  match indexFrom packOfsBad 0 1 c7s1 with
  | .ok s => s
  | .error _ => default

/-- Parser state after constructing over the seekable S1 pack without
storage. -/
def c7bs0 : PState :=
  match newParserWithStorage (packS1 true) none with
  | .ok s => s
  | .error _ => default

/-- Parser state of the seekable S1 run after `init`. -/
def c7bs1 : PState :=
  match pInit (packS1 true) [] c7bs0 with
  | .ok (_, s) => s
  | .error _ => default

/-- Parser state of the seekable S1 run after indexing the first
entry. -/
def c7bsMid : PState :=
  match indexFrom (packS1 true) 0 1 c7bs1 with
  | .ok s => s
  | .error _ => default

/-- Final state of a full observer-free parse of the seekable S1
pack. -/
def s1Final : PState :=
  match Parse (packS1 true) [] c7bs0 with
  | .ok (_, s) => s
  | .error _ => default

/-- An observer rejecting every event with the custom error 5. -/
def rejObs : Observer := fun _ => some (.custom 5)

/-- Final state of a parse of the seekable S1 pack under the rejecting
observer. -/
def s1RejFinal : PState :=
  match Parse (packS1 true) [rejObs] c7bs0 with
  | .error (_, s) => s
  | .ok _ => default

end OnchainGit.Packfile

namespace OnchainGit.Storage

open OnchainGit

/-- A small sample object. -/
def obj1 : GitObj := ⟨.blob, 3, [1, 2, 3]⟩

/-- An alternate directory holding `obj1` loose under hash 5. -/
def altA : DotGit := .mk [(5, obj1)] [] [] []

/-- A directory with no local objects whose only alternate is `altA`. -/
def dirAltOnly : DotGit := .mk [] [] [] [altA]

/-- A storage whose hash 5 is present only in an alternate. -/
def sAltOnly : ObjectStorage := ⟨dirAltOnly, []⟩

/-- An alternate whose loose probe for hash 5 raises I/O error 7. -/
def altErr : DotGit := .mk [] [(5, 7)] [] []

/-- A storage with two alternates: the first fails with a non-not-found
error for hash 5, the second has the object. -/
def sTwoAlts : ObjectStorage := ⟨.mk [] [] [] [altErr, altA], []⟩

/-- The reconstructed `"hello\x5cn world\x5cn"` payload. -/
def worldFull : Bytes := Packfile.helloBytes ++ Packfile.worldBytes

/-- An indexed pack holding the base blob at offset 12 (hash key 11)
and an OFS delta against it at offset 33 (hash key 13). -/
def packM1 : PackFileM :=
  ⟨[(11, 12), (13, 33)],
   [(12, .base .blob Packfile.helloBytes),
    (33, .ofsDelta 12 Packfile.deltaScript)]⟩

/-- A storage with one local pack and nothing else. -/
def sLocalPack : ObjectStorage := ⟨.mk [] [] [(3, packM1)] [], []⟩

/-- The empty storage. -/
def sEmpty : ObjectStorage := ⟨.mk [] [] [] [], []⟩

/-- A delta-typed object, rejected by `SetEncodedObject`. -/
def objDelta : GitObj := ⟨.ofsDelta, 3, [1, 2, 3]⟩

end OnchainGit.Storage

namespace OnchainGit.Packfile

open OnchainGit

/-- The arena keeps its size and every node keeps its offset and
children list (the resolve pass only rewrites `typ`, `sha1` and
`length`). -/
def nodesShape (s s' : PState) : Prop :=
  s'.nodes.length = s.nodes.length ∧
  ∀ j, (getNode s' j).offset = (getNode s j).offset ∧
       (getNode s' j).children = (getNode s j).children

/-- The bookkeeping a resolve-pass step never touches: object count,
index order, checksum, and the node shapes. -/
def corePres (s s' : PState) : Prop :=
  s'.count = s.count ∧ s'.oi = s.oi ∧ s'.checksum = s.checksum ∧
  nodesShape s s'

/-- Preservation inside `get`/`resolveObject`: core bookkeeping plus
the trace and the `deltas` map. -/
def resolvePres (s s' : PState) : Prop :=
  corePres s s' ∧ s'.trace = s.trace ∧ s'.deltas = s.deltas

/-- Every event of the trace passed every observer. -/
def allPass (obs : List Observer) (tr : List PEvent) : Prop :=
  ∀ e ∈ tr, combineObs obs e = none

/-- The parser state a phase ends in, whether it succeeded or
aborted. -/
def stateOf {α : Type} : Except (GError × PState) (α × PState) → PState
  | .ok (_, s) => s
  | .error (_, s) => s

/-- The abort discipline of an observer-carrying run that ended with
error `err`: every event but the last passed every observer (nothing is
emitted after a rejection), and if the last event was rejected, the
run's error is exactly the rejecting observer's error. -/
def errInvP (obs : List Observer) (err : GError) (tr : List PEvent) :
    Prop :=
  allPass obs tr.dropLast ∧
  (∀ ev, tr.getLast? = some ev →
     ∀ e2, combineObs obs ev = some e2 → err = e2)

/-- The index pass keeps `oi` aligned with the pack: the `k`-th indexed
node is an in-range arena node whose offset is the `k`-th entry's
offset. -/
def oiAligned (pk : PackSrc) (s : PState) : Prop :=
  ∀ k, k < s.oi.length → ∃ i e, s.oi[k]? = some i ∧
    pk.entries[k]? = some e ∧ i < s.nodes.length ∧
    (getNode s i).offset = e.offset

end OnchainGit.Packfile

namespace OnchainGit

open Packfile Storage GitService

theorem frameHash_ne_zero (t : ObjectType) (size : Nat) (data : Bytes) :
    frameHash t size data ≠ zeroHash := by
  simp [frameHash, zeroHash]

/-- C10: `Action()` returns `invalid` iff both hashes are zero, `create`
iff only the old hash is zero, `delete` iff only the new hash is zero,
`update` iff neither is zero; and `validate()` errs exactly when the
action is `invalid`. -/
theorem updateReference_action_validate (c : UpdateReferenceCommand) :
    (c.Action = .invalid ↔ (c.old = zeroHash ∧ c.new = zeroHash)) ∧
    (c.Action = .create ↔ (c.old = zeroHash ∧ c.new ≠ zeroHash)) ∧
    (c.Action = .delete ↔ (c.old ≠ zeroHash ∧ c.new = zeroHash)) ∧
    (c.Action = .update ↔ (c.old ≠ zeroHash ∧ c.new ≠ zeroHash)) ∧
    ((c.validate).isSome ↔ c.Action = .invalid) := by
  by_cases ho : c.old = zeroHash <;> by_cases hn : c.new = zeroHash <;>
    simp [UpdateReferenceCommand.Action, UpdateReferenceCommand.validate, ho, hn]

/-- C3: constructing a parser over a non-seekable scanner without a
storage fails with the not-seekable-source error; construction succeeds
whenever the scanner is seekable or a storage is provided, and then the
`deltas` map is allocated exactly in the non-seekable case. -/
theorem newParser_seekability (pk : PackSrc) (stor : Option MemStorage) :
    (pk.seekable = false → stor = none →
       newParserWithStorage pk stor = .error .notSeekableSource) ∧
    ((pk.seekable = true ∨ stor ≠ none) →
       ∃ s, newParserWithStorage pk stor = .ok s ∧
         s.deltas = (if pk.seekable then none else some []) ∧
         s.storage = stor) := by
  constructor
  · intro h1 h2
    simp [newParserWithStorage, h1, h2]
  · intro h
    refine ⟨{ storage := stor, count := 0, nodes := [], oi := [],
              oiByHash := [], oiByOffset := [], checksum := zeroHash,
              cache := [],
              deltas := if !pk.seekable then some [] else none,
              trace := [] }, ?_, ?_, rfl⟩
    · rcases h with h | h
      · simp [newParserWithStorage, h]
      · cases hs : stor with
        | none => exact absurd hs h
        | some st => simp [newParserWithStorage, hs]
    · cases pk.seekable <;> simp

/-- Witness for C3 at a concrete empty pack: the non-seekable
construction without storage fails, and with a storage it succeeds with
an allocated empty `deltas` map. -/
theorem newParser_seekability_witness :
    newParserWithStorage ⟨0, [], 0, false⟩ none = .error .notSeekableSource ∧
    ∃ s, newParserWithStorage ⟨0, [], 0, false⟩ (some ⟨[]⟩) = .ok s ∧
      s.deltas = (if (⟨0, [], (0 : Nat), false⟩ : PackSrc).seekable then none else some []) ∧
      s.storage = some ⟨[]⟩ :=
  ⟨(newParser_seekability ⟨0, [], 0, false⟩ none).1 rfl rfl,
   (newParser_seekability ⟨0, [], 0, false⟩ (some ⟨[]⟩)).2
     (Or.inr (by simp))⟩

/-- C8: `SetEncodedObject` returns the zero hash and the invalid-type
error for the two delta types, leaving the storage untouched; for any
other type it writes a loose object carrying the object's header and
payload and returns the object's hash. -/
theorem setEncodedObject_spec (s : ObjectStorage) (o : GitObj) :
    ((o.t = .ofsDelta ∨ o.t = .refDelta) →
       SetEncodedObject s o = (zeroHash, some .invalidType, s)) ∧
    (o.t ≠ .ofsDelta → o.t ≠ .refDelta →
       (SetEncodedObject s o).1 = o.hash ∧
       (SetEncodedObject s o).2.1 = none ∧
       (SetEncodedObject s o).2.2.dir.loose =
         (frameHash o.t o.size o.payload, o) :: s.dir.loose ∧
       (SetEncodedObject s o).2.2.dir.packs = s.dir.packs ∧
       (SetEncodedObject s o).2.2.dir.alternates = s.dir.alternates ∧
       (SetEncodedObject s o).2.2.cache = s.cache) := by
  constructor
  · intro h
    rcases h with h | h <;> simp [SetEncodedObject, h]
  · intro h1 h2
    cases hd : s.dir with
    | mk l e p a =>
      simp [SetEncodedObject, h1, h2, DotGit.addLoose, hd,
            DotGit.loose, DotGit.packs, DotGit.alternates]

/-- Witness for C8: the delta-typed object is rejected with the zero
hash on the empty storage, and a blob is written with its header and
payload. -/
theorem setEncodedObject_spec_witness :
    SetEncodedObject sEmpty objDelta = (zeroHash, some .invalidType, sEmpty) ∧
    (SetEncodedObject sEmpty obj1).1 = obj1.hash ∧
    (SetEncodedObject sEmpty obj1).2.2.dir.loose =
      (frameHash obj1.t obj1.size obj1.payload, obj1) :: sEmpty.dir.loose :=
  ⟨(setEncodedObject_spec sEmpty objDelta).1 (Or.inl rfl),
   ((setEncodedObject_spec sEmpty obj1).2 (by decide) (by decide)).1,
   ((setEncodedObject_spec sEmpty obj1).2 (by decide) (by decide)).2.2.1⟩

/-- C9: `HasEncodedObject` probes only the local loose directory and
local packs, never the alternates: on a storage where the hash misses
both local probes but `EncodedObject(Any, h)` still returns an object
(via an alternate), `HasEncodedObject` reports object-not-found.
Moreover the result of `HasEncodedObject` is insensitive to the
alternates list. -/
theorem hasEncodedObject_ignores_alternates (s : ObjectStorage)
    (h : Hash) (obj : GitObj)
    (hl : s.dir.object h = .notExist)
    (hp : findObjectInPackfile s h = none)
    (hobj : EncodedObject s .anyObject h = .ok obj) :
    HasEncodedObject s h = some .objectNotFound ∧
    (∀ l e p a a', HasEncodedObject ⟨.mk l e p a, s.cache⟩ h =
        HasEncodedObject ⟨.mk l e p a', s.cache⟩ h) := by
  refine ⟨?_, ?_⟩
  · simp [HasEncodedObject, hl, hp]
  · intro l e p a a'
    simp [HasEncodedObject, DotGit.object, DotGit.loose, DotGit.looseErr,
          findObjectInPackfile, DotGit.packs]

/-- Witness for C9 at the storage whose hash 5 lives only in an
alternate: `HasEncodedObject` misses while `EncodedObject` succeeds. -/
theorem hasEncodedObject_ignores_alternates_witness :
    HasEncodedObject sAltOnly 5 = some .objectNotFound :=
  (hasEncodedObject_ignores_alternates sAltOnly 5 obj1 (by decide) (by decide)
    (by simp [EncodedObject, sAltOnly, dirAltOnly, altA, encodedObjectD,
              tryAlternates, getFromUnpacked, DotGit.object, DotGit.looseErr,
              DotGit.loose, DotGit.alternates, getFromPackfile,
              findObjectInPackfile, DotGit.packs, obj1])).1

end OnchainGit

namespace OnchainGit

open Packfile Storage

theorem lookup_mem {β : Type} (l : List (Nat × β)) (k : Nat) (v : β) :
    l.lookup k = some v → (k, v) ∈ l := by
  induction l with
  | nil => intro h; simp [List.lookup] at h
  | cons kv rest ih =>
    intro h
    obtain ⟨a, b⟩ := kv
    rw [List.lookup] at h
    by_cases hk : k = a
    · subst hk
      simp at h
      subst h
      exact List.mem_cons_self _ _
    · have hne : (k == a) = false := by simp [hk]
      simp only [hne] at h
      exact List.mem_cons_of_mem _ (ih h)

/-- Counterexample to C5: the first alternate of `sTwoAlts` fails with
the I/O error 7 — not object-not-found — yet the lookup goes on: the
second alternate is consulted and its object is returned, instead of
the error aborting the lookup and being returned to the caller. -/
theorem encodedObject_alternate_error_cex :
    encodedObjectD altErr [] .anyObject 5 = .error (.ioErr 7) ∧
    EncodedObject sTwoAlts .anyObject 5 = .ok obj1 := by
  constructor
  · simp [altErr, encodedObjectD, getFromUnpacked, DotGit.object,
          DotGit.looseErr, DotGit.loose, getFromPackfile,
          findObjectInPackfile, DotGit.packs, DotGit.alternates]
  · simp [EncodedObject, sTwoAlts, altErr, altA, encodedObjectD,
          tryAlternates, getFromUnpacked, DotGit.object, DotGit.looseErr,
          DotGit.loose, DotGit.alternates, getFromPackfile,
          findObjectInPackfile, DotGit.packs, obj1]

/-- C5 (amended): when `EncodedObject` misses both local probes and
falls back to the alternates, an error of **any** kind — not-found or
otherwise — from an alternate causes the next alternate to be
consulted; the first success is returned; and when no alternate
succeeds the original not-found error is what the caller gets. -/
theorem encodedObject_alternates_order (cache : List (Hash × GitObj))
    (t : ObjectType) (h : Hash) (d : DotGit) (rest : List DotGit) :
    (∀ err, encodedObjectD d cache t h = .error err →
       tryAlternates cache t h (d :: rest) = tryAlternates cache t h rest) ∧
    (∀ obj, encodedObjectD d cache t h = .ok obj →
       tryAlternates cache t h (d :: rest) = some obj) ∧
    (∀ l e p alts,
       getFromUnpacked (.mk l e p alts) h = .error .objectNotFound →
       getFromPackfile (.mk l e p alts) cache h = .error .objectNotFound →
       encodedObjectD (.mk l e p alts) cache t h =
         (match tryAlternates cache t h alts with
          | some obj => .ok obj
          | none => .error .objectNotFound)) := by
  refine ⟨?_, ?_, ?_⟩
  · intro err herr
    simp [tryAlternates, herr]
  · intro obj hobj
    simp [tryAlternates, hobj]
  · intro l e p alts h1 h2
    rw [encodedObjectD]
    simp only [h1, h2]

/-- Witness for the amended C5 on the concrete two-alternate storage:
the first alternate errs with I/O error 7, the loop moves to the second
alternate, and the locally-missing lookup resolves to its object. -/
theorem encodedObject_alternates_order_witness :
    tryAlternates [] .anyObject 5 [altErr, altA] =
      tryAlternates [] .anyObject 5 [altA] ∧
    tryAlternates [] .anyObject 5 [altA] = some obj1 :=
  ⟨(encodedObject_alternates_order [] .anyObject 5 altErr [altA]).1 (.ioErr 7)
     (by simp [altErr, encodedObjectD, getFromUnpacked, DotGit.object,
               DotGit.looseErr, DotGit.loose, getFromPackfile,
               findObjectInPackfile, DotGit.packs, DotGit.alternates]),
   (encodedObject_alternates_order [] .anyObject 5 altA []).2.1 obj1
     (by simp [altA, encodedObjectD, getFromUnpacked, DotGit.object,
               DotGit.looseErr, DotGit.loose, obj1])⟩

theorem patchDelta_resultLen (base dd out : Bytes) :
    patchDelta base dd = .ok out → deltaResultLen dd = .ok out.length := by
  intro h
  unfold patchDelta at h
  unfold deltaResultLen
  cases h1 : decodeVarint dd with
  | none => simp [h1] at h
  | some p1 =>
    obtain ⟨srcLen, r1⟩ := p1
    simp only [h1] at h ⊢
    by_cases hs : srcLen = base.length
    · simp [hs] at h
      cases h2 : decodeVarint r1 with
      | none => simp [h2] at h
      | some p2 =>
        obtain ⟨resLen, r2⟩ := p2
        simp only [h2] at h ⊢
        cases h3 : applyOps base r2.length r2 [] with
        | none => simp [h3] at h
        | some o =>
          simp only [h3] at h
          by_cases hl : o.length = resLen
          · simp [hl] at h
            simp [← h, hl]
          · simp [hl] at h
    · simp [hs] at h

theorem getByOffset_ok_size (p : PackFileM) : ∀ fuel off obj,
    getByOffset p fuel off = .ok obj →
    obj.size = obj.payload.length ∧
    getSizeByOffset p off = .ok obj.payload.length := by
  intro fuel
  induction fuel with
  | zero => intro off obj h; simp [getByOffset] at h
  | succ n ih =>
    intro off obj h
    rw [getByOffset] at h
    unfold getSizeByOffset
    cases he : p.entries.lookup off with
    | none => simp [he] at h
    | some entry =>
      simp only [he] at h ⊢
      cases entry with
      | base t payload =>
        simp at h
        cases h
        simp
      | ofsDelta bOff dd =>
        cases hb : getByOffset p n bOff with
        | error e => simp [hb] at h
        | ok b =>
          simp only [hb] at h
          cases hp : patchDelta b.payload dd with
          | error e => simp [hp] at h
          | ok out =>
            simp [hp] at h
            cases h
            exact ⟨rfl, patchDelta_resultLen _ _ _ hp⟩
      | refDelta bh dd =>
        cases hi : p.idx.lookup bh with
        | none => simp [hi] at h
        | some bOff =>
          simp only [hi] at h
          cases hb : getByOffset p n bOff with
          | error e => simp [hb] at h
          | ok b =>
            simp only [hb] at h
            cases hp : patchDelta b.payload dd with
            | error e => simp [hp] at h
            | ok out =>
              simp [hp] at h
              cases h
              exact ⟨rfl, patchDelta_resultLen _ _ _ hp⟩

end OnchainGit

namespace OnchainGit

open Packfile Storage

/-- Counterexample to C4: hash 5 lives only in an alternate directory,
so `EncodedObject(Any, 5)` returns the object while
`EncodedObjectSize(5)` — which never consults alternates — fails with
object-not-found rather than returning the payload length. -/
theorem encodedObjectSize_alternate_cex :
    EncodedObject sAltOnly .anyObject 5 = .ok obj1 ∧
    EncodedObjectSize sAltOnly 5 = .error .objectNotFound := by
  constructor
  · simp [EncodedObject, sAltOnly, dirAltOnly, altA, encodedObjectD,
          tryAlternates, getFromUnpacked, DotGit.object, DotGit.looseErr,
          DotGit.loose, DotGit.alternates, getFromPackfile,
          findObjectInPackfile, DotGit.packs, obj1]
  · decide

/-- C4 (amended): on a storage without alternates, whose loose objects
and delta-base cache carry their payload length as size, every hash for
which `EncodedObject(Any, h)` returns an object has
`EncodedObjectSize(h)` succeed with exactly the byte length of that
object's payload. -/
theorem encodedObjectSize_matches_payload (s : ObjectStorage) (h : Hash)
    (obj : GitObj)
    (halts : s.dir.alternates = [])
    (hloose : ∀ k o, (k, o) ∈ s.dir.loose → o.size = o.payload.length)
    (hcache : ∀ k o, (k, o) ∈ s.cache → o.size = o.payload.length)
    (hobj : EncodedObject s .anyObject h = .ok obj) :
    EncodedObjectSize s h = .ok obj.payload.length := by
  obtain ⟨dir, cache⟩ := s
  obtain ⟨l, e, p, alts⟩ := dir
  simp only [DotGit.alternates] at halts
  subst halts
  simp only [DotGit.loose] at hloose
  simp only at hcache
  simp only [EncodedObject] at hobj
  unfold EncodedObjectSize encodedObjectSizeFromUnpacked
  cases hop : (DotGit.mk l e p []).object h with
  | found o0 =>
    have hup : getFromUnpacked (.mk l e p []) h = .ok o0 := by
      simp [getFromUnpacked, hop]
    rw [encodedObjectD] at hobj
    simp only [hup] at hobj
    simp at hobj
    subst hobj
    have hmem : (h, o0) ∈ l := by
      simp only [DotGit.object, DotGit.looseErr, DotGit.loose] at hop
      cases h1 : e.lookup h with
      | some n => simp [h1] at hop
      | none =>
        simp only [h1] at hop
        cases h2 : l.lookup h with
        | some o' =>
          simp only [h2] at hop
          cases hop
          exact lookup_mem l h o0 h2
        | none => simp [h2] at hop
    simp [hloose h o0 hmem]
  | ioErr n =>
    have hup : getFromUnpacked (.mk l e p []) h = .error (.ioErr n) := by
      simp [getFromUnpacked, hop]
    rw [encodedObjectD] at hobj
    simp only [hup] at hobj
    simp at hobj
  | notExist =>
    have hup : getFromUnpacked (.mk l e p []) h = .error .objectNotFound := by
      simp [getFromUnpacked, hop]
    rw [encodedObjectD] at hobj
    simp only [hup] at hobj
    cases hpf : getFromPackfile (.mk l e p []) cache h with
    | error err =>
      cases err <;> simp_all [tryAlternates]
    | ok o0 =>
      simp only [hpf] at hobj
      simp at hobj
      subst hobj
      simp only
      unfold getFromPackfile at hpf
      unfold encodedObjectSizeFromPackfile
      cases hf : findObjectInPackfile ⟨.mk l e p [], cache⟩ h with
      | none => simp [hf] at hpf
      | some po =>
        obtain ⟨pk, off⟩ := po
        simp only [hf] at hpf ⊢
        unfold decodeObjectAt at hpf
        cases hfh : pk.findHash off with
        | some hsh =>
          simp only [hfh] at hpf ⊢
          cases hcl : cache.lookup hsh with
          | some cobj =>
            simp only [hcl] at hpf
            cases hpf
            simp [hcache hsh _ (lookup_mem cache hsh _ hcl)]
          | none =>
            simp only [hcl] at hpf
            simp [(getByOffset_ok_size pk (pk.entries.length + 1) off _ hpf).2]
        | none =>
          simp only [hfh] at hpf ⊢
          simp [(getByOffset_ok_size pk (pk.entries.length + 1) off _ hpf).2]

/-- Witness for the amended C4 on a storage holding one local pack
(base blob plus OFS delta): the delta-typed hash 13 reads back as a
13-byte object and its size query returns 13 without materialising the
payload. -/
theorem encodedObjectSize_matches_payload_witness :
    EncodedObjectSize sLocalPack 13 =
      .ok (GitObj.payload ⟨.blob, 13, worldFull⟩).length :=
  encodedObjectSize_matches_payload sLocalPack 13 ⟨.blob, 13, worldFull⟩
    rfl
    (by intro k o hmem; simp [sLocalPack, DotGit.loose] at hmem)
    (by intro k o hmem; simp [sLocalPack] at hmem)
    (by show encodedObjectD (.mk [] [] [(3, packM1)] []) [] .anyObject 13 =
          .ok ⟨.blob, 13, worldFull⟩
        rw [encodedObjectD]
        decide)

end OnchainGit

namespace OnchainGit

open Packfile Storage

theorem updNode_length (ns : List ObjInfo) (i : Nat) (f : ObjInfo → ObjInfo) :
    (updNode ns i f).length = ns.length := by
  unfold updNode
  cases h : ns[i]? <;> simp

theorem updNode_get_self (ns : List ObjInfo) (p : Nat) (f : ObjInfo → ObjInfo) :
    (updNode ns p f)[p]? = (ns[p]?).map f := by
  unfold updNode
  cases h : ns[p]? with
  | none => simp [h]
  | some o =>
    have hp : p < ns.length := by
      by_contra hc
      push_neg at hc
      rw [List.getElem?_eq_none_iff.mpr hc] at h
      cases h
    simp [h, List.getElem?_set_eq hp]

theorem updNode_get_ne (ns : List ObjInfo) (p j : Nat) (f : ObjInfo → ObjInfo)
    (h : j ≠ p) : (updNode ns p f)[j]? = ns[j]? := by
  unfold updNode
  cases ns[p]? with
  | none => rfl
  | some o => exact List.getElem?_set_ne (Ne.symm h)

theorem resolvePres_refl (s : PState) : resolvePres s s := by
  refine ⟨⟨rfl, rfl, rfl, rfl, fun j => ⟨rfl, rfl⟩⟩, rfl, rfl⟩

theorem resolvePres_trans {s1 s2 s3 : PState} (h1 : resolvePres s1 s2)
    (h2 : resolvePres s2 s3) : resolvePres s1 s3 := by
  obtain ⟨⟨c1, o1, k1, n1, f1⟩, t1, d1⟩ := h1
  obtain ⟨⟨c2, o2, k2, n2, f2⟩, t2, d2⟩ := h2
  refine ⟨⟨c2.trans c1, o2.trans o1, k2.trans k1, n2.trans n1, fun j => ?_⟩,
          t2.trans t1, d2.trans d1⟩
  exact ⟨(f2 j).1.trans (f1 j).1, (f2 j).2.trans (f1 j).2⟩

theorem updNode_nodesShape (s : PState) (p : Nat) (f : ObjInfo → ObjInfo)
    (hf : ∀ o, (f o).offset = o.offset ∧ (f o).children = o.children) :
    nodesShape s { s with nodes := updNode s.nodes p f } := by
  refine ⟨updNode_length _ _ _, fun j => ?_⟩
  by_cases hj : j = p
  · subst hj
    simp only [getNode, updNode_get_self]
    cases h : s.nodes[j]? with
    | none => simp
    | some o => simp [(hf o).1, (hf o).2]
  · simp [getNode, updNode_get_ne _ _ _ _ hj]

theorem pApplyPatchBase_pres (i : Nat) (data base : Bytes) (s : PState) :
    (∀ out s', pApplyPatchBase i data base s = .ok (out, s') →
       resolvePres s s' ∧ s'.storage = s.storage) ∧
    (∀ e s', pApplyPatchBase i data base s = .error (e, s') → s' = s) := by
  constructor
  · intro out s' h
    unfold pApplyPatchBase at h
    cases hp : patchDelta base data with
    | error e => rw [hp] at h; cases h
    | ok patched =>
      simp only [hp] at h
      by_cases hz : (getNode s i).sha1 = zeroHash
      · rw [if_pos hz] at h
        cases hpar : (getNode s i).parent with
        | none => simp only [hpar] at h; cases h
        | some pIdx =>
          simp only [hpar] at h
          cases h
          refine ⟨⟨⟨rfl, rfl, rfl, ?_⟩, rfl, rfl⟩, rfl⟩
          exact updNode_nodesShape s i _ (fun o => ⟨rfl, rfl⟩)
      · rw [if_neg hz] at h
        cases h
        exact ⟨resolvePres_refl s, rfl⟩
  · intro e s' h
    unfold pApplyPatchBase at h
    cases hp : patchDelta base data with
    | error e2 => rw [hp] at h; cases h; rfl
    | ok patched =>
      simp only [hp] at h
      by_cases hz : (getNode s i).sha1 = zeroHash
      · rw [if_pos hz] at h
        cases hpar : (getNode s i).parent with
        | none => simp only [hpar] at h; cases h; rfl
        | some pIdx => simp only [hpar] at h; cases h
      · rw [if_neg hz] at h
        cases h

end OnchainGit

namespace OnchainGit

open Packfile Storage

theorem emit_ok (obs : List Observer) (e : PEvent) (s : PState) (u : Unit)
    (s' : PState) (h : emit obs e s = .ok (u, s')) :
    s'.trace = s.trace ++ [e] ∧ combineObs obs e = none ∧ corePres s s' ∧
    s'.deltas = s.deltas ∧ s'.cache = s.cache ∧ s'.storage = s.storage ∧
    s'.nodes = s.nodes ∧ s'.oiByHash = s.oiByHash ∧
    s'.oiByOffset = s.oiByOffset := by
  unfold emit at h
  cases hc : combineObs obs e with
  | none =>
    simp only [hc] at h
    cases h
    exact ⟨rfl, rfl, ⟨rfl, rfl, rfl, rfl, fun j => ⟨rfl, rfl⟩⟩, rfl, rfl, rfl,
           rfl, rfl, rfl⟩
  | some err => simp only [hc] at h; exact Except.noConfusion h

theorem emit_error (obs : List Observer) (e : PEvent) (s : PState)
    (err : GError) (s' : PState) (h : emit obs e s = .error (err, s')) :
    s'.trace = s.trace ++ [e] ∧ combineObs obs e = some err ∧
    corePres s s' ∧ s'.deltas = s.deltas := by
  unfold emit at h
  cases hc : combineObs obs e with
  | none => simp only [hc] at h; exact Except.noConfusion h
  | some err2 =>
    simp only [hc] at h
    cases h
    exact ⟨rfl, rfl, ⟨rfl, rfl, rfl, rfl, fun j => ⟨rfl, rfl⟩⟩, rfl⟩

theorem pResolveObject_pres (pk : PackSrc) (i : Nat) (base : Bytes)
    (s : PState) :
    (∀ out s', pResolveObject pk i base s = .ok (out, s') →
       resolvePres s s') ∧
    (∀ e s', pResolveObject pk i base s = .error (e, s') → s' = s) := by
  constructor
  · intro out s' h
    unfold pResolveObject at h
    cases hd : (getNode s i).diskType.IsDelta with
    | false =>
      simp only [hd] at h
      simp at h
      rw [← h.2]
      exact resolvePres_refl s
    | true =>
      simp only [hd] at h
      simp only [Bool.not_true, Bool.false_eq_true, if_false] at h
      cases hr : pReadData pk i s with
      | error e => simp only [hr] at h; exact Except.noConfusion h
      | ok data =>
        simp only [hr] at h
        cases hab : pApplyPatchBase i data base s with
        | error es => rw [hab] at h; exact Except.noConfusion h
        | ok ps =>
          obtain ⟨patched, s1⟩ := ps
          rw [hab] at h
          have hpres := (pApplyPatchBase_pres i data base s).1 patched s1 hab
          cases hst : s1.storage with
          | none =>
            simp only [hst] at h
            cases h
            exact hpres.1
          | some st =>
            simp only [hst] at h
            cases h
            exact resolvePres_trans hpres.1
              ⟨⟨rfl, rfl, rfl, rfl, fun j => ⟨rfl, rfl⟩⟩, rfl, rfl⟩
  · intro e s' h
    unfold pResolveObject at h
    cases hd : (getNode s i).diskType.IsDelta with
    | false =>
      simp only [hd] at h
      simp at h
    | true =>
      simp only [hd] at h
      simp only [Bool.not_true, Bool.false_eq_true, if_false] at h
      cases hr : pReadData pk i s with
      | error e2 =>
        simp only [hr] at h
        cases h
        rfl
      | ok data =>
        simp only [hr] at h
        cases hab : pApplyPatchBase i data base s with
        | error es =>
          obtain ⟨e1, se⟩ := es
          rw [hab] at h
          cases h
          exact (pApplyPatchBase_pres i data base s).2 _ _ hab
        | ok ps =>
          obtain ⟨patched, s1⟩ := ps
          rw [hab] at h
          cases hst : s1.storage with
          | none => simp only [hst] at h; exact Except.noConfusion h
          | some st => simp only [hst] at h; exact Except.noConfusion h

end OnchainGit

namespace OnchainGit

open Packfile Storage

theorem pResolveObject_pres_state (pk : PackSrc) (i : Nat) (base : Bytes)
    (s1 : PState) :
    resolvePres s1 (stateOf (pResolveObject pk i base s1)) := by
  cases hro : pResolveObject pk i base s1 with
  | error es =>
    obtain ⟨e2, se⟩ := es
    have hse := (pResolveObject_pres pk i base s1).2 e2 se hro
    simp only [stateOf, hse]
    exact resolvePres_refl s1
  | ok ds =>
    obtain ⟨data, s2⟩ := ds
    simp only [stateOf]
    exact (pResolveObject_pres pk i base s1).1 data s2 hro

theorem pGet_pres (pk : PackSrc) : ∀ fuel i s,
    resolvePres s (stateOf (pGet pk fuel i s)) := by
  intro fuel
  induction fuel with
  | zero =>
    intro i s
    simp only [pGet, stateOf]
    exact resolvePres_refl s
  | succ n ih =>
    intro i s
    rw [pGet]
    cases hext : (getNode s i).externalRef with
    | true =>
      simp only [hext, if_true]
      cases hst : s.storage with
      | none =>
        simp only [hst, stateOf]
        exact resolvePres_refl s
      | some st =>
        cases htyp : (getNode s i).typ.IsDelta with
        | true =>
          simp only [hst, htyp, Bool.not_true, Bool.false_eq_true, if_false,
                     stateOf]
          exact resolvePres_refl s
        | false =>
          simp only [hst, htyp, Bool.not_false, if_true]
          cases henc : st.encodedObject (getNode s i).sha1 with
          | error e =>
            simp only [henc, stateOf]
            exact resolvePres_refl s
          | ok tb =>
            obtain ⟨t, bytes⟩ := tb
            simp only [henc, stateOf]
            exact ⟨⟨rfl, rfl, rfl,
                    updNode_nodesShape s i _ (fun o => ⟨rfl, rfl⟩)⟩, rfl, rfl⟩
    | false =>
      simp only [hext, Bool.false_eq_true, if_false]
      cases hc : s.cache.lookup (getNode s i).offset with
      | some b =>
        simp only [hc, stateOf]
        exact resolvePres_refl s
      | none =>
        simp only [hc]
        have hcore : ∀ s2 : PState, resolvePres s s2 →
            resolvePres s (stateOf
              (if 0 < (getNode s2 i).children.length then
                 Except.ok ((([] : Bytes)),
                   { s2 with cache := mapPut (getNode s2 i).offset [] s2.cache })
               else .ok ([], s2))) := by
          intro s2 h2
          by_cases hch : 0 < (getNode s2 i).children.length
          · simp only [hch, if_true, stateOf]
            exact resolvePres_trans h2
              ⟨⟨rfl, rfl, rfl, rfl, fun j => ⟨rfl, rfl⟩⟩, rfl, rfl⟩
          · simp only [hch, if_false, stateOf]
            exact h2
        clear hcore
        have hvia : ∀ r : Except (GError × PState) (Bytes × PState),
            resolvePres s (stateOf r) →
            resolvePres s (stateOf
              (match r with
               | .error es => .error es
               | .ok (data, s2) =>
                 if 0 < (getNode s2 i).children.length then
                   .ok (data,
                     { s2 with cache := mapPut (getNode s2 i).offset data s2.cache })
                 else .ok (data, s2))) := by
          intro r hr
          cases r with
          | error es => exact hr
          | ok ds =>
            obtain ⟨data, s2⟩ := ds
            simp only [stateOf] at hr
            by_cases hch : 0 < (getNode s2 i).children.length
            · simp only [hch, if_true, stateOf]
              exact resolvePres_trans hr
                ⟨⟨rfl, rfl, rfl, rfl, fun j => ⟨rfl, rfl⟩⟩, rfl, rfl⟩
            · simp only [hch, if_false, stateOf]
              exact hr
        cases hst : s.storage with
        | some st =>
          cases htyp : (getNode s i).typ.IsDelta with
          | false =>
            simp only [hst, htyp, Bool.not_false, if_true]
            cases henc : st.encodedObject (getNode s i).sha1 with
            | error e =>
              simp only [henc, stateOf]
              exact resolvePres_refl s
            | ok tb =>
              obtain ⟨t, bytes⟩ := tb
              simp only [henc, stateOf]
              exact ⟨⟨rfl, rfl, rfl,
                      updNode_nodesShape s i _ (fun o => ⟨rfl, rfl⟩)⟩, rfl, rfl⟩
          | true =>
            simp only [hst, htyp, Bool.not_true, Bool.false_eq_true, if_false]
            apply hvia
            cases hdisk : (getNode s i).diskType.IsDelta with
            | false =>
              simp only [hdisk, Bool.false_eq_true, if_false]
              cases hrd : pReadData pk i s with
              | error e =>
                simp only [hrd, stateOf]
                exact resolvePres_refl s
              | ok d =>
                simp only [hrd, stateOf]
                exact resolvePres_refl s
            | true =>
              simp only [hdisk, if_true]
              cases hpar : (getNode s i).parent with
              | none =>
                simp only [hpar, stateOf]
                exact resolvePres_refl s
              | some pIdx =>
                simp only [hpar]
                cases hrec : pGet pk n pIdx s with
                | error es =>
                  have := ih pIdx s
                  rw [hrec] at this
                  exact this
                | ok bs =>
                  obtain ⟨base, s1⟩ := bs
                  have h1 := ih pIdx s
                  rw [hrec] at h1
                  simp only [stateOf] at h1
                  exact resolvePres_trans h1 (pResolveObject_pres_state pk i base s1)
        | none =>
          simp only [hst]
          apply hvia
          cases hdisk : (getNode s i).diskType.IsDelta with
          | false =>
            simp only [hdisk, Bool.false_eq_true, if_false]
            cases hrd : pReadData pk i s with
            | error e =>
              simp only [hrd, stateOf]
              exact resolvePres_refl s
            | ok d =>
              simp only [hrd, stateOf]
              exact resolvePres_refl s
          | true =>
            simp only [hdisk, if_true]
            cases hpar : (getNode s i).parent with
            | none =>
              simp only [hpar, stateOf]
              exact resolvePres_refl s
            | some pIdx =>
              simp only [hpar]
              cases hrec : pGet pk n pIdx s with
              | error es =>
                have := ih pIdx s
                rw [hrec] at this
                exact this
              | ok bs =>
                obtain ⟨base, s1⟩ := bs
                have h1 := ih pIdx s
                rw [hrec] at h1
                simp only [stateOf] at h1
                exact resolvePres_trans h1 (pResolveObject_pres_state pk i base s1)

end OnchainGit

namespace OnchainGit

open Packfile Storage

theorem pInit_ok (pk : PackSrc) (obs : List Observer) (s s1 : PState)
    (h : pInit pk obs s = .ok ((), s1)) :
    s1.count = pk.count ∧ s1.oi = [] ∧ s1.oiByHash = [] ∧
    s1.oiByOffset = [] ∧ s1.trace = s.trace ++ [.onHeader pk.count] ∧
    combineObs obs (.onHeader pk.count) = none ∧
    s1.storage = s.storage ∧ s1.nodes = s.nodes ∧ s1.deltas = s.deltas ∧
    s1.cache = s.cache ∧ s1.checksum = s.checksum := by
  unfold pInit at h
  cases he : emit obs (.onHeader pk.count) s with
  | error es => rw [he] at h; exact Except.noConfusion h
  | ok us =>
    obtain ⟨u, s'⟩ := us
    rw [he] at h
    cases h
    obtain ⟨ht, hc, hcore, hdel, hca, hst, hn, hh, ho⟩ :=
      emit_ok obs _ s u s' he
    exact ⟨rfl, rfl, rfl, rfl, ht, hc, hst, hn, hdel, hca, hcore.2.2.1⟩

theorem pInit_error (pk : PackSrc) (obs : List Observer) (s : PState)
    (err : GError) (se : PState)
    (h : pInit pk obs s = .error (err, se)) :
    se.trace = s.trace ++ [.onHeader pk.count] ∧
    combineObs obs (.onHeader pk.count) = some err := by
  unfold pInit at h
  cases he : emit obs (.onHeader pk.count) s with
  | error es =>
    obtain ⟨e2, s2⟩ := es
    rw [he] at h
    cases h
    obtain ⟨ht, hc, _, _⟩ := emit_error obs _ s err se he
    exact ⟨ht, hc⟩
  | ok us => rw [he] at h; exact Except.noConfusion h

theorem indexFrom_succ (pk : PackSrc) (i rem : Nat) (s : PState) :
    indexFrom pk i (rem + 1) s =
      match indexStep pk i s with
      | .error e => .error e
      | .ok s' => indexFrom pk (i + 1) rem s' := rfl

theorem indexFrom_add (pk : PackSrc) : ∀ m i n s,
    indexFrom pk i (m + n) s =
      match indexFrom pk i m s with
      | .error e => .error e
      | .ok s' => indexFrom pk (i + m) n s' := by
  intro m
  induction m with
  | zero =>
    intro i n s
    simp [indexFrom]
  | succ m ih =>
    intro i n s
    rw [show m + 1 + n = (m + n) + 1 from by omega, indexFrom_succ,
        indexFrom_succ]
    cases hstep : indexStep pk i s with
    | error e => rfl
    | ok s2 =>
      dsimp only
      rw [ih (i + 1) n s2]
      have harith : i + 1 + m = i + (m + 1) := by omega
      rw [harith]

/-- C7: during the index pass, an OFS-delta entry whose absolute base
offset has no already-indexed object in `oiByOffset` makes `Parse` fail
with the object-not-found error; when the base is present, the index
step succeeds, creating a child delta node appended at the end of the
base node's children list (encounter order). -/
theorem ofsDelta_base_lookup (pk : PackSrc) (obs : List Observer)
    (stor : Option MemStorage) (s0 s1 sMid : PState) (i : Nat)
    (oh : PEntry) (baseOff : Nat)
    (hnew : newParserWithStorage pk stor = .ok s0)
    (hinit : pInit pk obs s0 = .ok ((), s1))
    (hpre : indexFrom pk 0 i s1 = .ok sMid)
    (hent : pk.entries[i]? = some oh)
    (hkind : oh.kind = .ofs baseOff)
    (hi : i < pk.count) :
    (sMid.oiByOffset.lookup baseOff = none →
       Parse pk obs s0 = .error (.objectNotFound, s1)) ∧
    (∀ pIdx, sMid.oiByOffset.lookup baseOff = some pIdx →
       pIdx < sMid.nodes.length →
       ∃ s', indexStep pk i sMid = .ok s' ∧
         s'.nodes.length = sMid.nodes.length + 1 ∧
         (getNode s' sMid.nodes.length).parent = some pIdx ∧
         (getNode s' sMid.nodes.length).diskType = .ofsDelta ∧
         (getNode s' sMid.nodes.length).offset = oh.offset ∧
         (getNode s' pIdx).children =
           (getNode sMid pIdx).children ++ [sMid.nodes.length] ∧
         s'.oi = sMid.oi ++ [sMid.nodes.length]) := by
  constructor
  · intro hnone
    have hstep : indexStep pk i sMid = .error .objectNotFound := by
      unfold indexStep
      simp only [hent, hkind, hnone]
    unfold Parse
    rw [hinit]
    dsimp only
    have hcount := (pInit_ok pk obs s0 s1 hinit).1
    unfold indexObjects
    rw [hcount]
    rw [show pk.count = i + ((pk.count - i - 1) + 1) from by omega,
        indexFrom_add, hpre]
    dsimp only
    simp only [Nat.zero_add]
    rw [indexFrom_succ, hstep]
  · intro pIdx hsome hlt
    have hget : sMid.nodes[pIdx]? = some (getNode sMid pIdx) := by
      rw [List.getElem?_eq_getElem hlt]
      simp [getNode, List.getElem?_eq_getElem hlt]
    refine ⟨{ sMid with
        nodes := updNode sMid.nodes pIdx
            (fun p => { p with children := p.children ++ [sMid.nodes.length] })
          ++ [{ newDeltaObject oh.offset oh.length .ofsDelta (some pIdx) with
                crc32 := oh.crc }],
        oiByOffset := (oh.offset, sMid.nodes.length) :: sMid.oiByOffset,
        oi := sMid.oi ++ [sMid.nodes.length],
        deltas := if !pk.seekable then
            some ((oh.offset, oh.data) :: (sMid.deltas.getD []))
          else sMid.deltas }, ?_, ?_, ?_, ?_, ?_, ?_, rfl⟩
    · unfold indexStep
      simp only [hent, hkind, hsome]
    · simp only [List.length_append, updNode_length, List.length_cons,
                 List.length_nil]
    · have hidx : (updNode sMid.nodes pIdx
          (fun p => { p with children := p.children ++ [sMid.nodes.length] })
          ++ [{ newDeltaObject oh.offset oh.length .ofsDelta (some pIdx) with
                crc32 := oh.crc }])[sMid.nodes.length]? =
          some { newDeltaObject oh.offset oh.length .ofsDelta (some pIdx) with
                 crc32 := oh.crc } := by
        rw [List.getElem?_append_right (by rw [updNode_length])]
        simp [updNode_length]
      simp only [getNode, hidx, Option.getD_some]
      rfl
    · have hidx : (updNode sMid.nodes pIdx
          (fun p => { p with children := p.children ++ [sMid.nodes.length] })
          ++ [{ newDeltaObject oh.offset oh.length .ofsDelta (some pIdx) with
                crc32 := oh.crc }])[sMid.nodes.length]? =
          some { newDeltaObject oh.offset oh.length .ofsDelta (some pIdx) with
                 crc32 := oh.crc } := by
        rw [List.getElem?_append_right (by rw [updNode_length])]
        simp [updNode_length]
      simp only [getNode, hidx, Option.getD_some]
      rfl
    · have hidx : (updNode sMid.nodes pIdx
          (fun p => { p with children := p.children ++ [sMid.nodes.length] })
          ++ [{ newDeltaObject oh.offset oh.length .ofsDelta (some pIdx) with
                crc32 := oh.crc }])[sMid.nodes.length]? =
          some { newDeltaObject oh.offset oh.length .ofsDelta (some pIdx) with
                 crc32 := oh.crc } := by
        rw [List.getElem?_append_right (by rw [updNode_length])]
        simp [updNode_length]
      simp only [getNode, hidx, Option.getD_some]
      rfl
    · have hlt' : pIdx < (updNode sMid.nodes pIdx
          (fun p => { p with children := p.children ++ [sMid.nodes.length] })).length := by
        rw [updNode_length]; exact hlt
      have hres : (updNode sMid.nodes pIdx
          (fun p => { p with children := p.children ++ [sMid.nodes.length] })
          ++ [{ newDeltaObject oh.offset oh.length .ofsDelta (some pIdx) with
                crc32 := oh.crc }])[pIdx]? =
          some { getNode sMid pIdx with
                 children := (getNode sMid pIdx).children ++ [sMid.nodes.length] } := by
        rw [List.getElem?_append_left hlt', updNode_get_self, hget]
        rfl
      show (getNode _ pIdx).children = _
      rw [getNode, hres]
      rfl

/-- Witness for C7: over `packOfsBad`, the second entry's base offset
999 is not indexed and `Parse` fails with object-not-found; over the S1
pack, the second entry's base offset 12 is the first node, and the
index step appends the new child to its children list. -/
theorem ofsDelta_base_lookup_witness :
    Parse packOfsBad [] c7s0 = .error (.objectNotFound, c7s1) ∧
    (∃ s', indexStep (packS1 true) 1 c7bsMid = .ok s' ∧
       s'.nodes.length = c7bsMid.nodes.length + 1 ∧
       (getNode s' c7bsMid.nodes.length).parent = some 0 ∧
       (getNode s' c7bsMid.nodes.length).diskType = .ofsDelta ∧
       (getNode s' c7bsMid.nodes.length).offset =
         (⟨33, .ofs 12, deltaScript, 22⟩ : PEntry).offset ∧
       (getNode s' 0).children =
         (getNode c7bsMid 0).children ++ [c7bsMid.nodes.length] ∧
       s'.oi = c7bsMid.oi ++ [c7bsMid.nodes.length]) :=
  ⟨(ofsDelta_base_lookup packOfsBad [] none c7s0 c7s1 c7sMid 1
      ⟨33, .ofs 999, deltaScript, 22⟩ 999 rfl rfl rfl rfl rfl
      (by decide)).1 (by decide),
   (ofsDelta_base_lookup (packS1 true) [] none c7bs0 c7bs1 c7bsMid 1
      ⟨33, .ofs 12, deltaScript, 22⟩ 12 rfl rfl rfl rfl rfl
      (by decide)).2 0 (by decide) (by decide)⟩

end OnchainGit

namespace OnchainGit

open Packfile Storage

/-- C2: over a thin pack — a single REF delta whose base hash is absent
from the pack — the index pass creates a placeholder parent node with
`externalRef = true` registered under the base hash in `oiByHash`;
`Parse` without an attached storage fails with the
reference-delta-not-found error; and `Parse` with a storage containing
the base object succeeds. -/
theorem thinPack_placeholder_resolution (off : Nat) (H : Hash)
    (dd : Bytes) (crc cs : Nat) (st : MemStorage) (t : ObjectType)
    (base out : Bytes)
    (hst : st.objs.lookup H = some (t, base))
    (hpatch : patchDelta base dd = .ok out) :
    (∃ s0 s1 s2, newParser (thinPack off H dd crc cs) = .ok s0 ∧
       pInit (thinPack off H dd crc cs) [] s0 = .ok ((), s1) ∧
       indexObjects (thinPack off H dd crc cs) s1 = .ok s2 ∧
       (getNode s2 0).externalRef = true ∧ (getNode s2 0).sha1 = H ∧
       s2.oiByHash.lookup H = some 0 ∧ (getNode s2 1).parent = some 0) ∧
    (∀ s0, newParser (thinPack off H dd crc cs) = .ok s0 →
       ∃ se, Parse (thinPack off H dd crc cs) [] s0 =
         .error (.referenceDeltaNotFound, se)) ∧
    (∀ s0,
       newParserWithStorage (thinPack off H dd crc cs) (some st) = .ok s0 →
       ∃ sF, Parse (thinPack off H dd crc cs) [] s0 = .ok (cs, sF)) := by
  refine ⟨⟨⟨none, 0, [], [], [], [], zeroHash, [], none, []⟩,
           ⟨none, 1, [], [], [], [], zeroHash, [], none, [.onHeader 1]⟩,
           ⟨none, 1,
            [⟨0, 0, .anyObject, .anyObject, true, 0, none, [1], H⟩,
             ⟨off, dd.length, .refDelta, .refDelta, false, crc, some 0, [],
              zeroHash⟩],
            [1], [(H, 0)], [(off, 1)], zeroHash, [], none, [.onHeader 1]⟩,
           rfl, rfl, ?_, rfl, rfl, ?_, rfl⟩, ?_, ?_⟩
  · rfl
  · simp [List.lookup]
  · intro s0 h0
    have hs0 : s0 = ⟨none, 0, [], [], [], [], zeroHash, [], none, []⟩ := by
      unfold newParser newParserWithStorage at h0
      simp [thinPack] at h0
      exact h0.symm
    subst hs0
    exact ⟨⟨none, 1,
            [⟨0, 0, .anyObject, .anyObject, true, 0, none, [1], H⟩,
             ⟨off, dd.length, .refDelta, .refDelta, false, crc, some 0, [],
              zeroHash⟩],
            [1], [(H, 0)], [(off, 1)], cs, [], none, [.onHeader 1]⟩, rfl⟩
  · intro s0 h0
    have hs0 : s0 = ⟨some st, 0, [], [], [], [], zeroHash, [], none, []⟩ := by
      unfold newParserWithStorage at h0
      simp [thinPack] at h0
      exact h0.symm
    subst hs0
    refine ⟨⟨some ⟨(getSHA1 t out, t, out) :: st.objs⟩, 1,
            [⟨0, 0, t, .anyObject, true, 0, none, [1], H⟩,
             ⟨off, out.length, t, .refDelta, false, crc, some 0, [],
              getSHA1 t out⟩],
            [1], [(H, 0)], [(off, 1)], cs, [], none,
            [.onHeader 1, .onInflatedObjectHeader t out.length off,
             .onInflatedObjectContent (getSHA1 t out) off crc out,
             .onFooter cs]⟩, ?_⟩
    simp [Parse, pInit, emit, combineObs, indexObjects, indexFrom,
          indexStep, resolveDeltas, resolveLoop, resolveStep, pGet,
          pResolveObject, pReadData, pApplyPatchBase, getNode, thinPack,
          List.lookup, hst, hpatch, MemStorage.encodedObject,
          MemStorage.setEncodedObject, updNode, zeroHash, newDeltaObject,
          newBaseObject, PEntry.length, PEntry.diskType, ObjectType.IsDelta,
          ObjInfo.IsDelta, List.find?, mapPut, mapDel]

end OnchainGit

namespace OnchainGit

open Packfile Storage

/-- Witness for C2 at the concrete S3 scenario: the thin pack whose REF
delta names the `"hello"` blob, with the blob available in a storage:
placeholder created, storage-less parse fails with
reference-delta-not-found, storage-backed parse succeeds. -/
theorem thinPack_placeholder_resolution_witness :
    (∃ s0 s1 s2,
       newParser (thinPack 12 hHello deltaScript 33 777) = .ok s0 ∧
       pInit (thinPack 12 hHello deltaScript 33 777) [] s0 = .ok ((), s1) ∧
       indexObjects (thinPack 12 hHello deltaScript 33 777) s1 = .ok s2 ∧
       (getNode s2 0).externalRef = true ∧ (getNode s2 0).sha1 = hHello ∧
       s2.oiByHash.lookup hHello = some 0 ∧
       (getNode s2 1).parent = some 0) ∧
    (∀ s0, newParser (thinPack 12 hHello deltaScript 33 777) = .ok s0 →
       ∃ se, Parse (thinPack 12 hHello deltaScript 33 777) [] s0 =
         .error (.referenceDeltaNotFound, se)) ∧
    (∀ s0, newParserWithStorage (thinPack 12 hHello deltaScript 33 777)
         (some stHello) = .ok s0 →
       ∃ sF, Parse (thinPack 12 hHello deltaScript 33 777) [] s0 =
         .ok (777, sF)) :=
  thinPack_placeholder_resolution 12 hHello deltaScript 33 777 stHello
    .blob helloBytes worldFull (by decide) (by decide)

end OnchainGit

namespace OnchainGit

open Packfile Storage

/-- Counterexample to C6: a successful resolve pass over the
non-seekable S1 pack (base blob plus one OFS delta, empty storage
attached).  The delta node at offset 33 has no children, so its cached
payload is never dropped: after `resolveDeltas` completes the `deltas`
map still holds the delta payload, refuting "no delta payload remains
in the deltas map". -/
theorem resolveDeltas_drop_cex :
    resolveDeltas (packS1 false) [] (afterIndex (packS1 false) (some ⟨[]⟩)) =
      .ok ((), s1nsFinal) ∧
    (getNode s1nsFinal 1).diskType = .ofsDelta ∧
    (getNode s1nsFinal 1).offset = 33 ∧
    (s1nsFinal.deltas.getD []).lookup 33 = some deltaScript := by
  refine ⟨?_, ?_, ?_, ?_⟩ <;> decide

theorem corePres_refl (s : PState) : corePres s s :=
  ⟨rfl, rfl, rfl, rfl, fun j => ⟨rfl, rfl⟩⟩

theorem corePres_trans {a b c : PState} (h1 : corePres a b)
    (h2 : corePres b c) : corePres a c := by
  obtain ⟨c1, o1, k1, n1, f1⟩ := h1
  obtain ⟨c2, o2, k2, n2, f2⟩ := h2
  exact ⟨c2.trans c1, o2.trans o1, k2.trans k1, n2.trans n1,
         fun j => ⟨(f2 j).1.trans (f1 j).1, (f2 j).2.trans (f1 j).2⟩⟩

theorem resolveChildren_pres (pk : PackSrc) (base : Bytes) :
    ∀ cs s,
    (∀ s', resolveChildren pk base cs s = .ok s' → resolvePres s s') ∧
    (∀ e s', resolveChildren pk base cs s = .error (e, s') →
       resolvePres s s') := by
  intro cs
  induction cs with
  | nil =>
    intro s
    constructor
    · intro s' h
      cases h
      exact resolvePres_refl s
    · intro e s' h
      exact Except.noConfusion h
  | cons c rest ih =>
    intro s
    constructor
    · intro s' h
      unfold resolveChildren at h
      cases hro : pResolveObject pk c base s with
      | error es => rw [hro] at h; exact Except.noConfusion h
      | ok ds =>
        obtain ⟨d, s1⟩ := ds
        rw [hro] at h
        exact resolvePres_trans
          ((pResolveObject_pres pk c base s).1 d s1 hro) ((ih s1).1 s' h)
    · intro e s' h
      unfold resolveChildren at h
      cases hro : pResolveObject pk c base s with
      | error es =>
        obtain ⟨e2, se⟩ := es
        rw [hro] at h
        cases h
        rw [(pResolveObject_pres pk c base s).2 _ _ hro]
        exact resolvePres_refl s
      | ok ds =>
        obtain ⟨d, s1⟩ := ds
        rw [hro] at h
        exact resolvePres_trans
          ((pResolveObject_pres pk c base s).1 d s1 hro) ((ih s1).2 e s' h)

end OnchainGit

namespace OnchainGit

open Packfile Storage

theorem resolveStep_ok (pk : PackSrc) (obs : List Observer) (i : Nat)
    (s s' : PState) (h : resolveStep pk obs i s = .ok ((), s')) :
    corePres s s' ∧
    (∃ t sz hsh crc c,
       s'.trace = s.trace ++
         [.onInflatedObjectHeader t sz ((getNode s i).offset),
          .onInflatedObjectContent hsh ((getNode s i).offset) crc c] ∧
       combineObs obs
         (.onInflatedObjectHeader t sz ((getNode s i).offset)) = none ∧
       combineObs obs
         (.onInflatedObjectContent hsh ((getNode s i).offset) crc c) =
           none) ∧
    (s'.deltas = s.deltas ∨
       ((getNode s i).children ≠ [] ∧
        s'.deltas =
          some (mapDel ((getNode s i).offset) (s.deltas.getD [])))) := by
  unfold resolveStep at h
  cases hg : pGet pk (s.nodes.length + 1) i s with
  | error es => rw [hg] at h; exact Except.noConfusion h
  | ok bs =>
    obtain ⟨content, s1⟩ := bs
    simp only [hg] at h
    have hp1 : resolvePres s s1 := by
      have hx := pGet_pres pk (s.nodes.length + 1) i s
      rw [hg] at hx
      exact hx
    obtain ⟨⟨hc1, ho1, hk1, hlen1, hf1⟩, ht1, hd1⟩ := hp1
    have hoff1 : (getNode s1 i).offset = (getNode s i).offset := (hf1 i).1
    cases he1 : emit obs (.onInflatedObjectHeader (getNode s1 i).typ
        (getNode s1 i).length (getNode s1 i).offset) s1 with
    | error es => rw [he1] at h; exact Except.noConfusion h
    | ok us2 =>
      obtain ⟨u2, s2⟩ := us2
      simp only [he1] at h
      obtain ⟨ht2, hcb2, hcore2, hd2, hca2, hst2, hn2, hh2, ho2⟩ :=
        emit_ok obs _ s1 u2 s2 he1
      cases he2 : emit obs (.onInflatedObjectContent (getNode s1 i).sha1
          (getNode s1 i).offset (getNode s1 i).crc32 content) s2 with
      | error es => rw [he2] at h; exact Except.noConfusion h
      | ok us3 =>
        obtain ⟨u3, s3⟩ := us3
        simp only [he2] at h
        obtain ⟨ht3, hcb3, hcore3, hd3, hca3, hst3, hn3, hh3, ho3⟩ :=
          emit_ok obs _ s2 u3 s3 he2
        have hcoreS3 : corePres s s3 :=
          corePres_trans (corePres_trans ⟨hc1, ho1, hk1, hlen1, hf1⟩ hcore2)
            hcore3
        have hoff3 : (getNode s3 i).offset = (getNode s i).offset :=
          (hcoreS3.2.2.2.2 i).1
        have hch3 : (getNode s3 i).children = (getNode s i).children :=
          (hcoreS3.2.2.2.2 i).2
        have htr3 : s3.trace = s.trace ++
            [.onInflatedObjectHeader (getNode s1 i).typ
               (getNode s1 i).length ((getNode s i).offset),
             .onInflatedObjectContent (getNode s1 i).sha1
               ((getNode s i).offset) (getNode s1 i).crc32 content] := by
          rw [ht3, ht2, ht1, hoff1]
          simp
        have hcbA : combineObs obs (.onInflatedObjectHeader
            (getNode s1 i).typ (getNode s1 i).length
            ((getNode s i).offset)) = none := by
          rw [← hoff1]; exact hcb2
        have hcbB : combineObs obs (.onInflatedObjectContent
            (getNode s1 i).sha1 ((getNode s i).offset)
            (getNode s1 i).crc32 content) = none := by
          rw [← hoff1]; exact hcb3
        have hdS3 : s3.deltas = s.deltas := by rw [hd3, hd2, hd1]
        by_cases hcond : (!(getNode s3 i).IsDelta &&
            decide (0 < (getNode s3 i).children.length)) = true
        · rw [if_pos hcond] at h
          cases hrc : resolveChildren pk content (getNode s3 i).children
              s3 with
          | error es => rw [hrc] at h; exact Except.noConfusion h
          | ok s4 =>
            simp only [hrc] at h
            obtain ⟨hcore4, ht4, hd4⟩ :=
              (resolveChildren_pres pk content ((getNode s3 i).children)
                s3).1 s4 hrc
            by_cases hdel : ((getNode s3 i).diskType.IsDelta &&
                !pk.seekable) = true
            · rw [if_pos hdel] at h
              cases h
              refine ⟨corePres_trans (corePres_trans hcoreS3 hcore4)
                        ⟨rfl, rfl, rfl, rfl, fun j => ⟨rfl, rfl⟩⟩,
                      ⟨_, _, _, _, _, ?_, hcbA, hcbB⟩, ?_⟩
              · show s4.trace = _
                rw [ht4, htr3]
              · right
                refine ⟨?_, ?_⟩
                · rw [← hch3]
                  have hpos : 0 < (getNode s3 i).children.length := by
                    rw [Bool.and_eq_true] at hcond
                    exact of_decide_eq_true hcond.2
                  exact List.ne_nil_of_length_pos hpos
                · show some (mapDel ((getNode s3 i).offset)
                      ((s4.deltas).getD [])) = _
                  rw [hoff3, hd4, hdS3]
            · rw [if_neg hdel] at h
              cases h
              refine ⟨corePres_trans hcoreS3 hcore4,
                      ⟨_, _, _, _, _, ?_, hcbA, hcbB⟩, Or.inl ?_⟩
              · rw [ht4, htr3]
              · rw [hd4, hdS3]
        · rw [if_neg hcond] at h
          cases h
          exact ⟨hcoreS3, ⟨_, _, _, _, _, htr3, hcbA, hcbB⟩, Or.inl hdS3⟩

end OnchainGit

namespace OnchainGit

open Packfile Storage

theorem mapDel_lookup_ne (k k2 : Nat) (m : List (Nat × Bytes))
    (h : k ≠ k2) : (mapDel k2 m).lookup k = m.lookup k := by
  induction m with
  | nil => rfl
  | cons kv rest ih =>
    obtain ⟨a, b⟩ := kv
    by_cases ha : a = k2
    · subst ha
      have h1 : mapDel a ((a, b) :: rest) = mapDel a rest := by
        simp [mapDel, List.filter]
      have h2 : (k == a) = false := by simp [h]
      rw [h1, ih]
      conv_rhs => rw [List.lookup, h2]
    · have h1 : mapDel k2 ((a, b) :: rest) = (a, b) :: mapDel k2 rest := by
        simp [mapDel, List.filter, ha]
      rw [h1]
      by_cases hk : k = a
      · subst hk
        simp [List.lookup]
      · have h2 : (k == a) = false := by simp [hk]
        rw [List.lookup, h2, List.lookup, h2]
        exact ih

theorem resolveLoop_keeps (pk : PackSrc) (obs : List Observer) (j : Nat) :
    ∀ idxs s sF,
    resolveLoop pk obs idxs s = .ok ((), sF) →
    (getNode s j).children = [] →
    (∀ i2, i2 < s.nodes.length → i2 ≠ j →
       (getNode s i2).offset ≠ (getNode s j).offset) →
    corePres s sF ∧
    (sF.deltas.getD []).lookup ((getNode s j).offset) =
      (s.deltas.getD []).lookup ((getNode s j).offset) := by
  intro idxs
  induction idxs with
  | nil =>
    intro s sF h hch hdist
    cases h
    exact ⟨corePres_refl s, rfl⟩
  | cons i rest ih =>
    intro s sF h hch hdist
    unfold resolveLoop at h
    cases hstep : resolveStep pk obs i s with
    | error es => rw [hstep] at h; exact Except.noConfusion h
    | ok us1 =>
      obtain ⟨u1, s1⟩ := us1
      simp only [hstep] at h
      obtain ⟨hcore1, _, hdel1⟩ := resolveStep_ok pk obs i s s1 hstep
      have hshape := hcore1.2.2.2.2
      have hch1 : (getNode s1 j).children = [] := by
        rw [(hshape j).2]; exact hch
      have hoffj : (getNode s1 j).offset = (getNode s j).offset :=
        (hshape j).1
      have hdist1 : ∀ i2, i2 < s1.nodes.length → i2 ≠ j →
          (getNode s1 i2).offset ≠ (getNode s1 j).offset := by
        intro i2 hlt hne
        rw [(hshape i2).1, hoffj]
        exact hdist i2 (by rw [← hcore1.2.2.2.1]; exact hlt) hne
      obtain ⟨hcoreR, hkeepR⟩ := ih s1 sF h hch1 hdist1
      refine ⟨corePres_trans hcore1 hcoreR, ?_⟩
      rw [hoffj] at hkeepR
      rw [hkeepR]
      rcases hdel1 with hsame | ⟨hne, hset⟩
      · rw [hsame]
      · rw [hset]
        have hoffne : (getNode s j).offset ≠ (getNode s i).offset := by
          by_cases hij : i = j
          · subst hij; exact absurd hch hne
          · by_cases hlt : i < s.nodes.length
            · exact (hdist i hlt hij).symm
            · exfalso
              apply hne
              simp [getNode,
                    List.getElem?_eq_none_iff.mpr (Nat.le_of_not_lt hlt)]
              rfl
        simp only [Option.getD_some]
        exact mapDel_lookup_ne _ _ _ hoffne

/-- C6 (amended): in the resolve pass, the cached payload
`deltas[o.offset]` is dropped only for nodes `o` that have delta
children (the branch `!obj.IsDelta && len(obj.Children) > 0` guards the
delete); consequently the payload of every childless delta node is
still in the `deltas` map after `resolveDeltas` completes.  Stated for
any node `j` with no children whose offset is not shared (offsets are
unique across a well-formed pack). -/
theorem resolveDeltas_childless_payload_kept (pk : PackSrc)
    (obs : List Observer) (s sF : PState) (j : Nat)
    (hch : (getNode s j).children = [])
    (hdist : ∀ i2, i2 < s.nodes.length → i2 ≠ j →
       (getNode s i2).offset ≠ (getNode s j).offset)
    (hrun : resolveDeltas pk obs s = .ok ((), sF)) :
    (sF.deltas.getD []).lookup ((getNode s j).offset) =
      (s.deltas.getD []).lookup ((getNode s j).offset) :=
  (resolveLoop_keeps pk obs j s.oi s sF hrun hch hdist).2

/-- Witness for the amended C6: over the non-seekable S1 pack, the
childless delta node (index 1, offset 33) keeps its cached payload
through the whole resolve pass. -/
theorem resolveDeltas_childless_payload_kept_witness :
    (s1nsFinal.deltas.getD []).lookup
        ((getNode (afterIndex (packS1 false) (some ⟨[]⟩)) 1).offset) =
      (((afterIndex (packS1 false) (some ⟨[]⟩)).deltas.getD []).lookup
        ((getNode (afterIndex (packS1 false) (some ⟨[]⟩)) 1).offset)) :=
  resolveDeltas_childless_payload_kept (packS1 false) []
    (afterIndex (packS1 false) (some ⟨[]⟩)) s1nsFinal 1
    (by decide) (by decide) (by decide)

end OnchainGit

namespace OnchainGit

open Packfile Storage

theorem allPass_append (obs : List Observer) (t1 t2 : List PEvent)
    (h1 : allPass obs t1) (h2 : allPass obs t2) :
    allPass obs (t1 ++ t2) := by
  intro e he
  rcases List.mem_append.mp he with hm | hm
  · exact h1 e hm
  · exact h2 e hm

theorem allPass_dropLast (obs : List Observer) (tr : List PEvent)
    (h : allPass obs tr) : allPass obs tr.dropLast :=
  fun e he => h e (List.mem_of_mem_dropLast he)

theorem errInvP_of_allPass (obs : List Observer) (err : GError)
    (tr : List PEvent) (h : allPass obs tr) : errInvP obs err tr := by
  refine ⟨allPass_dropLast obs tr h, ?_⟩
  intro ev hlast e2 hcomb
  rw [h ev (List.mem_of_mem_getLast? hlast)] at hcomb
  exact Option.noConfusion hcomb

theorem errInvP_append_one (obs : List Observer) (err : GError)
    (tr : List PEvent) (ev : PEvent) (h : allPass obs tr)
    (hev : combineObs obs ev = some err) :
    errInvP obs err (tr ++ [ev]) := by
  refine ⟨?_, ?_⟩
  · rw [List.dropLast_concat]
    exact h
  · intro ev2 hlast e2 hcomb
    rw [List.getLast?_concat] at hlast
    cases hlast
    rw [hev] at hcomb
    exact (Option.some.inj hcomb)

theorem errInvP_append_two (obs : List Observer) (err : GError)
    (tr : List PEvent) (ev1 ev2 : PEvent) (h : allPass obs tr)
    (hev1 : combineObs obs ev1 = none)
    (hev2 : combineObs obs ev2 = some err ∨ combineObs obs ev2 = none) :
    errInvP obs err (tr ++ [ev1, ev2]) := by
  have hsplit : tr ++ [ev1, ev2] = (tr ++ [ev1]) ++ [ev2] := by simp
  rw [hsplit]
  refine ⟨?_, ?_⟩
  · rw [List.dropLast_concat]
    exact allPass_append obs tr [ev1] h (by
      intro e he
      rcases List.mem_singleton.mp he with rfl
      exact hev1)
  · intro evl hlast e2 hcomb
    rw [List.getLast?_concat] at hlast
    cases hlast
    rcases hev2 with hx | hx
    · rw [hx] at hcomb
      exact (Option.some.inj hcomb)
    · rw [hx] at hcomb
      exact Option.noConfusion hcomb

theorem resolveStep_err (pk : PackSrc) (obs : List Observer) (i : Nat)
    (s : PState) (err : GError) (se : PState)
    (h : resolveStep pk obs i s = .error (err, se)) :
    (se.trace = s.trace) ∨
    (∃ ev, se.trace = s.trace ++ [ev] ∧ combineObs obs ev = some err) ∨
    (∃ ev1 ev2, se.trace = s.trace ++ [ev1, ev2] ∧
       combineObs obs ev1 = none ∧
       (combineObs obs ev2 = some err ∨ combineObs obs ev2 = none)) := by
  unfold resolveStep at h
  cases hg : pGet pk (s.nodes.length + 1) i s with
  | error es =>
    obtain ⟨e0, s0⟩ := es
    rw [hg] at h
    cases h
    left
    have hx := pGet_pres pk (s.nodes.length + 1) i s
    rw [hg] at hx
    exact hx.2.1
  | ok bs =>
    obtain ⟨content, s1⟩ := bs
    simp only [hg] at h
    have hp1 : resolvePres s s1 := by
      have hx := pGet_pres pk (s.nodes.length + 1) i s
      rw [hg] at hx
      exact hx
    cases he1 : emit obs (.onInflatedObjectHeader (getNode s1 i).typ
        (getNode s1 i).length (getNode s1 i).offset) s1 with
    | error es =>
      obtain ⟨e0, s0⟩ := es
      simp only [he1] at h
      cases h
      obtain ⟨ht0, hcb0, _, _⟩ := emit_error obs _ s1 err se he1
      right; left
      exact ⟨_, by rw [ht0, hp1.2.1], hcb0⟩
    | ok us2 =>
      obtain ⟨u2, s2⟩ := us2
      simp only [he1] at h
      obtain ⟨ht2, hcb2, hcore2, hd2, _⟩ := emit_ok obs _ s1 u2 s2 he1
      cases he2 : emit obs (.onInflatedObjectContent (getNode s1 i).sha1
          (getNode s1 i).offset (getNode s1 i).crc32 content) s2 with
      | error es =>
        obtain ⟨e0, s0⟩ := es
        simp only [he2] at h
        cases h
        obtain ⟨ht0, hcb0, _, _⟩ := emit_error obs _ s2 err se he2
        right; right
        refine ⟨_, _, ?_, hcb2, Or.inl hcb0⟩
        rw [ht0, ht2, hp1.2.1, List.append_assoc]
        rfl
      | ok us3 =>
        obtain ⟨u3, s3⟩ := us3
        simp only [he2] at h
        obtain ⟨ht3, hcb3, hcore3, hd3, _⟩ := emit_ok obs _ s2 u3 s3 he2
        have htr3 : s3.trace = s.trace ++
            [.onInflatedObjectHeader (getNode s1 i).typ
               (getNode s1 i).length (getNode s1 i).offset,
             .onInflatedObjectContent (getNode s1 i).sha1
               ((getNode s1 i).offset) (getNode s1 i).crc32 content] := by
          rw [ht3, ht2, hp1.2.1, List.append_assoc]
          rfl
        by_cases hcond : (!(getNode s3 i).IsDelta &&
            decide (0 < (getNode s3 i).children.length)) = true
        · rw [if_pos hcond] at h
          cases hrc : resolveChildren pk content (getNode s3 i).children
              s3 with
          | error es =>
            obtain ⟨e0, s0⟩ := es
            simp only [hrc] at h
            cases h
            have hpr := (resolveChildren_pres pk content
              ((getNode s3 i).children) s3).2 _ _ hrc
            right; right
            refine ⟨_, _, ?_, hcb2, Or.inr hcb3⟩
            rw [hpr.2.1, htr3]
          | ok s4 =>
            simp only [hrc] at h
            by_cases hdel : ((getNode s3 i).diskType.IsDelta &&
                !pk.seekable) = true
            · rw [if_pos hdel] at h
              exact Except.noConfusion h
            · rw [if_neg hdel] at h
              exact Except.noConfusion h
        · rw [if_neg hcond] at h
          exact Except.noConfusion h

end OnchainGit

namespace OnchainGit

open Packfile Storage

theorem resolveLoop_ok (pk : PackSrc) (obs : List Observer) :
    ∀ idxs s sF, resolveLoop pk obs idxs s = .ok ((), sF) →
    corePres s sF ∧
    ∃ pairs : List (PEvent × PEvent),
      pairs.length = idxs.length ∧
      sF.trace = s.trace ++ pairs.flatMap (fun pr => [pr.1, pr.2]) ∧
      (∀ k, k < idxs.length → ∃ i t sz hsh crc c,
         idxs[k]? = some i ∧
         pairs[k]? =
           some (.onInflatedObjectHeader t sz ((getNode s i).offset),
                 .onInflatedObjectContent hsh ((getNode s i).offset) crc c)) ∧
      (∀ pr ∈ pairs,
         combineObs obs pr.1 = none ∧ combineObs obs pr.2 = none) := by
  intro idxs
  induction idxs with
  | nil =>
    intro s sF h
    cases h
    refine ⟨corePres_refl s, [], rfl, by simp, ?_, by simp⟩
    intro k hk
    simp at hk
  | cons i rest ih =>
    intro s sF h
    unfold resolveLoop at h
    cases hstep : resolveStep pk obs i s with
    | error es => rw [hstep] at h; exact Except.noConfusion h
    | ok us1 =>
      obtain ⟨u1, s1⟩ := us1
      simp only [hstep] at h
      obtain ⟨hcore1, ⟨t, sz, hsh, crc, c, htr1, hcb1, hcb2⟩, _⟩ :=
        resolveStep_ok pk obs i s s1 hstep
      obtain ⟨hcoreR, pairs, hplen, hptr, hpal, hppass⟩ := ih s1 sF h
      refine ⟨corePres_trans hcore1 hcoreR,
              (PEvent.onInflatedObjectHeader t sz ((getNode s i).offset),
               PEvent.onInflatedObjectContent hsh ((getNode s i).offset)
                 crc c) :: pairs,
              by simp [hplen], ?_, ?_, ?_⟩
      · rw [hptr, htr1]
        simp
      · intro k hk
        cases k with
        | zero =>
          exact ⟨i, t, sz, hsh, crc, c, by simp, by simp⟩
        | succ k2 =>
          have hk2 : k2 < rest.length := by
            simpa using hk
          obtain ⟨i2, t2, sz2, hsh2, crc2, c2, hidx2, hpair2⟩ := hpal k2 hk2
          refine ⟨i2, t2, sz2, hsh2, crc2, c2, ?_, ?_⟩
          · rw [List.getElem?_cons_succ]
            exact hidx2
          · rw [List.getElem?_cons_succ, hpair2, (hcore1.2.2.2.2 i2).1]
      · intro pr hpr
        rcases List.mem_cons.mp hpr with hq | hm
        · rw [hq]
          exact ⟨hcb1, hcb2⟩
        · exact hppass pr hm

theorem resolveLoop_err (pk : PackSrc) (obs : List Observer) :
    ∀ idxs s err se,
    resolveLoop pk obs idxs s = .error (err, se) →
    allPass obs s.trace →
    errInvP obs err se.trace := by
  intro idxs
  induction idxs with
  | nil =>
    intro s err se h hp
    exact Except.noConfusion h
  | cons i rest ih =>
    intro s err se h hp
    unfold resolveLoop at h
    cases hstep : resolveStep pk obs i s with
    | error es =>
      obtain ⟨e0, s0⟩ := es
      rw [hstep] at h
      cases h
      rcases resolveStep_err pk obs i s err se hstep with
        h1 | ⟨ev, h2, hc⟩ | ⟨ev1, ev2, h3, hc1, hc2⟩
      · rw [h1]
        exact errInvP_of_allPass obs err _ hp
      · rw [h2]
        exact errInvP_append_one obs err _ ev hp hc
      · rw [h3]
        exact errInvP_append_two obs err _ ev1 ev2 hp hc1 hc2
    | ok us1 =>
      obtain ⟨u1, s1⟩ := us1
      simp only [hstep] at h
      obtain ⟨_, ⟨t, sz, hsh, crc, c, htr1, hcb1, hcb2⟩, _⟩ :=
        resolveStep_ok pk obs i s s1 hstep
      have hp1 : allPass obs s1.trace := by
        rw [htr1]
        apply allPass_append obs _ _ hp
        intro e he
        rcases List.mem_cons.mp he with hq | he2
        · rw [hq]; exact hcb1
        · rcases List.mem_singleton.mp he2 with rfl
          exact hcb2
      exact ih s1 err se h hp1

end OnchainGit

namespace OnchainGit

open Packfile Storage

theorem updNode_append_get_offset (ns : List ObjInfo) (p : Nat)
    (f : ObjInfo → ObjInfo) (hf : ∀ o, (f o).offset = o.offset)
    (tail : List ObjInfo) (j : Nat) (hj : j < ns.length) :
    ((((updNode ns p f) ++ tail)[j]?).getD default).offset =
      ((ns[j]?).getD default).offset := by
  have hj2 : j < (updNode ns p f).length := by
    rw [updNode_length]; exact hj
  rw [List.getElem?_append_left hj2]
  by_cases hp : j = p
  · subst hp
    rw [updNode_get_self]
    cases hx : ns[j]? with
    | none => simp
    | some o => simp [hf o]
  · rw [updNode_get_ne _ _ _ _ hp]

theorem indexStep_ok_props (pk : PackSrc) (i : Nat) (s s' : PState)
    (h : indexStep pk i s = .ok s') :
    s'.trace = s.trace ∧ s'.count = s.count ∧ s'.checksum = s.checksum ∧
    ∃ newIdx e, pk.entries[i]? = some e ∧
      s'.oi = s.oi ++ [newIdx] ∧
      s.nodes.length ≤ s'.nodes.length ∧
      newIdx < s'.nodes.length ∧
      (getNode s' newIdx).offset = e.offset ∧
      (∀ j, j < s.nodes.length →
         (getNode s' j).offset = (getNode s j).offset) := by
  unfold indexStep at h
  cases hent : pk.entries[i]? with
  | none => rw [hent] at h; exact Except.noConfusion h
  | some oh =>
    simp only [hent] at h
    cases hk : oh.kind with
    | ofs baseOff =>
      simp only [hk] at h
      cases hlook : s.oiByOffset.lookup baseOff with
      | none =>
        simp only [hlook] at h
        exact Except.noConfusion h
      | some pIdx =>
        simp only [hlook] at h
        cases h
        refine ⟨rfl, rfl, rfl, s.nodes.length, oh, rfl, rfl, ?_, ?_, ?_, ?_⟩
        · simp [updNode_length]
        · simp [updNode_length]
        · show ((((updNode s.nodes pIdx _) ++ _)[s.nodes.length]?).getD
            default).offset = oh.offset
          rw [List.getElem?_append_right (by rw [updNode_length])]
          simp [updNode_length]
          rfl
        · intro j hj
          exact updNode_append_get_offset s.nodes pIdx
            (fun p => { p with children := p.children ++ [s.nodes.length] })
            (fun o => rfl) _ j hj
    | ref refH =>
      simp only [hk] at h
      cases hlook : s.oiByHash.lookup refH with
      | some pIdx =>
        simp only [hlook] at h
        cases h
        refine ⟨rfl, rfl, rfl, s.nodes.length, oh, rfl, rfl, ?_, ?_, ?_, ?_⟩
        · simp [updNode_length]
        · simp [updNode_length]
        · show ((((updNode s.nodes pIdx _) ++ _)[s.nodes.length]?).getD
            default).offset = oh.offset
          rw [List.getElem?_append_right (by rw [updNode_length])]
          simp [updNode_length]
          rfl
        · intro j hj
          exact updNode_append_get_offset s.nodes pIdx
            (fun p => { p with children := p.children ++ [s.nodes.length] })
            (fun o => rfl) _ j hj
      | none =>
        simp only [hlook] at h
        cases h
        refine ⟨rfl, rfl, rfl, s.nodes.length + 1, oh, rfl, rfl, ?_, ?_,
                ?_, ?_⟩
        · simp
        · simp
        · show (((s.nodes ++ _)[s.nodes.length + 1]?).getD default).offset =
            oh.offset
          rw [List.getElem?_append_right (by omega)]
          simp
          rfl
        · intro j hj
          show (((s.nodes ++ _)[j]?).getD default).offset = _
          rw [List.getElem?_append_left hj]
          rfl
    | base t =>
      simp only [hk] at h
      cases h
      refine ⟨rfl, rfl, rfl, s.nodes.length, oh, rfl, rfl, ?_, ?_, ?_, ?_⟩
      · simp
      · simp
      · show (((s.nodes ++ _)[s.nodes.length]?).getD default).offset =
          oh.offset
        rw [List.getElem?_append_right (by omega)]
        simp
        rfl
      · intro j hj
        show (((s.nodes ++ _)[j]?).getD default).offset = _
        rw [List.getElem?_append_left hj]
        rfl

end OnchainGit

namespace OnchainGit

open Packfile Storage

theorem indexFrom_props (pk : PackSrc) : ∀ rem i s s',
    indexFrom pk i rem s = .ok s' →
    s.oi.length = i →
    oiAligned pk s →
    s'.trace = s.trace ∧ s'.count = s.count ∧ s'.checksum = s.checksum ∧
    s'.oi.length = i + rem ∧ oiAligned pk s' := by
  intro rem
  induction rem with
  | zero =>
    intro i s s' h hlen halign
    cases h
    exact ⟨rfl, rfl, rfl, by omega, halign⟩
  | succ n ih =>
    intro i s s' h hlen halign
    rw [indexFrom_succ] at h
    cases hstep : indexStep pk i s with
    | error e => rw [hstep] at h; exact Except.noConfusion h
    | ok s1 =>
      rw [hstep] at h
      obtain ⟨htr, hco, hck, newIdx, e, hent, hoi, hlenN, hnewlt, hnewoff,
              holdoff⟩ := indexStep_ok_props pk i s s1 hstep
      have hlen1 : s1.oi.length = i + 1 := by
        rw [hoi]
        simp [hlen]
      have halign1 : oiAligned pk s1 := by
        intro k hk
        rw [hlen1] at hk
        by_cases hkk : k < s.oi.length
        · obtain ⟨i0, e0, hoik, hentk, hlt0, hoff0⟩ := halign k hkk
          refine ⟨i0, e0, ?_, hentk, ?_, ?_⟩
          · rw [hoi, List.getElem?_append_left hkk]
            exact hoik
          · omega
          · rw [holdoff i0 hlt0]
            exact hoff0
        · have hke : k = s.oi.length := by omega
          refine ⟨newIdx, e, ?_, ?_, hnewlt, hnewoff⟩
          · rw [hoi, hke, List.getElem?_append_right (Nat.le_refl _)]
            simp
          · rw [hke, hlen]
            exact hent
      obtain ⟨htrR, hcoR, hckR, hlenR, halignR⟩ :=
        ih (i + 1) s1 s' h hlen1 halign1
      refine ⟨htrR.trans htr, hcoR.trans hco, hckR.trans hck, ?_, halignR⟩
      omega

end OnchainGit

namespace OnchainGit

open Packfile Storage

theorem allPass_flat (obs : List Observer)
    (pairs : List (PEvent × PEvent))
    (h : ∀ pr ∈ pairs,
       combineObs obs pr.1 = none ∧ combineObs obs pr.2 = none) :
    allPass obs (pairs.flatMap fun pr => [pr.1, pr.2]) := by
  intro e he
  rw [List.mem_flatMap] at he
  obtain ⟨pr, hpr, hin⟩ := he
  rcases List.mem_cons.mp hin with hq | hin2
  · rw [hq]; exact (h pr hpr).1
  · rcases List.mem_singleton.mp hin2 with rfl
    exact (h pr hpr).2

/-- C1: for every `Parse` over a pack declaring `count` objects, a
successful run emits exactly one `OnHeader(count)`, then exactly
`count` paired `OnInflatedObjectHeader`/`OnInflatedObjectContent`
events in index order (the `k`-th pair carries the `k`-th entry's
offset), then exactly one `OnFooter(checksum)` last, every event
passing every observer; and if any observer callback returns an error,
`Parse` aborts immediately — no event is ever emitted after a rejected
one — and returns that observer's error unchanged. -/
theorem parse_observer_contract (pk : PackSrc) (obs : List Observer)
    (stor : Option MemStorage) (s0 : PState)
    (hnew : newParserWithStorage pk stor = .ok s0) :
    (∀ resH sF, Parse pk obs s0 = .ok (resH, sF) →
       resH = pk.checksum ∧
       allPass obs sF.trace ∧
       ∃ pairs : List (PEvent × PEvent),
         pairs.length = pk.count ∧
         sF.trace = .onHeader pk.count ::
           ((pairs.flatMap fun pr => [pr.1, pr.2]) ++
            [.onFooter pk.checksum]) ∧
         (∀ k, k < pk.count → ∃ e t sz hsh crc c,
            pk.entries[k]? = some e ∧
            pairs[k]? =
              some (.onInflatedObjectHeader t sz e.offset,
                    .onInflatedObjectContent hsh e.offset crc c))) ∧
    (∀ err sF, Parse pk obs s0 = .error (err, sF) →
       errInvP obs err sF.trace) := by
  have hs0 : s0.trace = [] ∧ s0.count = 0 := by
    unfold newParserWithStorage at hnew
    by_cases hc : (!pk.seekable && stor.isNone) = true
    · rw [if_pos hc] at hnew
      exact Except.noConfusion hnew
    · rw [if_neg hc] at hnew
      cases hnew
      exact ⟨rfl, rfl⟩
  have hs0pass : allPass obs s0.trace := by
    intro e he
    rw [hs0.1] at he
    cases he
  constructor
  · intro resH sF hP
    unfold Parse at hP
    cases hInit : pInit pk obs s0 with
    | error es => rw [hInit] at hP; exact Except.noConfusion hP
    | ok us1 =>
      obtain ⟨u1, s1⟩ := us1
      cases u1
      simp only [hInit] at hP
      obtain ⟨h1count, h1oi, h1oh, h1oo, h1tr, h1comb, _⟩ :=
        pInit_ok pk obs s0 s1 hInit
      have h1tr2 : s1.trace = [.onHeader pk.count] := by
        rw [h1tr, hs0.1]
        rfl
      cases hIdx : indexObjects pk s1 with
      | error e => simp only [hIdx] at hP; exact Except.noConfusion hP
      | ok s2 =>
        simp only [hIdx] at hP
        obtain ⟨h2tr, h2co, h2ck, h2len, h2al⟩ :=
          indexFrom_props pk s1.count 0 s1 s2
            (by unfold indexObjects at hIdx; exact hIdx)
            (by rw [h1oi]; rfl)
            (by intro k hk; rw [h1oi] at hk; simp at hk)
        cases hRes : resolveDeltas pk obs
            { s2 with checksum := pk.checksum } with
        | error es => simp only [hRes] at hP; exact Except.noConfusion hP
        | ok us3 =>
          obtain ⟨u3, s3⟩ := us3
          cases u3
          simp only [hRes] at hP
          have hRes2 : resolveLoop pk obs
              ({ s2 with checksum := pk.checksum }).oi
              { s2 with checksum := pk.checksum } = .ok ((), s3) := hRes
          obtain ⟨hcore3, pairs, hplen, hptr, hpal, hppass⟩ :=
            resolveLoop_ok pk obs _ _ s3 hRes2
          have hplen2 : pairs.length = pk.count := by
            rw [hplen]
            show s2.oi.length = pk.count
            rw [h2len, h1count]
            omega
          have htr3 : s3.trace = PEvent.onHeader pk.count ::
              (pairs.flatMap fun pr => [pr.1, pr.2]) := by
            rw [hptr]
            show s2.trace ++ _ = _
            rw [h2tr, h1tr2]
            rfl
          have hpass3 : allPass obs s3.trace := by
            rw [htr3]
            intro e he
            rcases List.mem_cons.mp he with hq | hm
            · rw [hq]; exact h1comb
            · exact allPass_flat obs pairs hppass e hm
          have hck3 : s3.checksum = pk.checksum := by
            have := hcore3.2.2.1
            rw [this]
          cases hFoot : emit obs (.onFooter s3.checksum) s3 with
          | error es => simp only [hFoot] at hP; exact Except.noConfusion hP
          | ok us4 =>
            obtain ⟨u4, s4⟩ := us4
            cases u4
            simp only [hFoot] at hP
            cases hP
            obtain ⟨h4tr, h4comb, h4core, _⟩ := emit_ok obs _ s3 () sF hFoot
            have h4ck : sF.checksum = pk.checksum := by
              rw [h4core.2.2.1, hck3]
            refine ⟨h4ck, ?_, pairs, hplen2, ?_, ?_⟩
            · rw [h4tr]
              apply allPass_append obs _ _ hpass3
              intro e he
              rcases List.mem_singleton.mp he with rfl
              exact h4comb
            · rw [h4tr, htr3, hck3]
              simp
            · intro k hk
              have hk2 : k < ({ s2 with checksum := pk.checksum} : PState).oi.length := by
                show k < s2.oi.length
                rw [h2len, h1count]
                omega
              obtain ⟨i, t, sz, hsh, crc, c, hidx, hpair⟩ := hpal k hk2
              have hk3 : k < s2.oi.length := hk2
              obtain ⟨i0, e0, hoik, hentk, hlt0, hoff0⟩ := h2al k hk3
              have hii : i = i0 := by
                have hsome : some i = some i0 := by rw [← hidx, ← hoik]
                exact Option.some.inj hsome
              subst hii
              refine ⟨e0, t, sz, hsh, crc, c, hentk, ?_⟩
              rw [hpair]
              show some (PEvent.onInflatedObjectHeader t sz
                    ((getNode s2 i).offset),
                  PEvent.onInflatedObjectContent hsh
                    ((getNode s2 i).offset) crc c) = _
              rw [hoff0]
  · intro err sF hP
    unfold Parse at hP
    cases hInit : pInit pk obs s0 with
    | error es =>
      obtain ⟨e0, se⟩ := es
      rw [hInit] at hP
      cases hP
      obtain ⟨hetr, hecomb⟩ := pInit_error pk obs s0 err sF hInit
      rw [hetr]
      exact errInvP_append_one obs err _ _ hs0pass hecomb
    | ok us1 =>
      obtain ⟨u1, s1⟩ := us1
      cases u1
      simp only [hInit] at hP
      obtain ⟨h1count, h1oi, h1oh, h1oo, h1tr, h1comb, _⟩ :=
        pInit_ok pk obs s0 s1 hInit
      have h1tr2 : s1.trace = [.onHeader pk.count] := by
        rw [h1tr, hs0.1]
        rfl
      have h1pass : allPass obs s1.trace := by
        rw [h1tr2]
        intro e he
        rcases List.mem_singleton.mp he with rfl
        exact h1comb
      cases hIdx : indexObjects pk s1 with
      | error e =>
        simp only [hIdx] at hP
        cases hP
        exact errInvP_of_allPass obs err _ h1pass
      | ok s2 =>
        simp only [hIdx] at hP
        obtain ⟨h2tr, h2co, h2ck, h2len, h2al⟩ :=
          indexFrom_props pk s1.count 0 s1 s2
            (by unfold indexObjects at hIdx; exact hIdx)
            (by rw [h1oi]; rfl)
            (by intro k hk; rw [h1oi] at hk; simp at hk)
        have h2pass : allPass obs
            ({ s2 with checksum := pk.checksum } : PState).trace := by
          show allPass obs s2.trace
          rw [h2tr]
          exact h1pass
        cases hRes : resolveDeltas pk obs
            { s2 with checksum := pk.checksum } with
        | error es =>
          obtain ⟨e0, se⟩ := es
          simp only [hRes] at hP
          cases hP
          have hRes2 : resolveLoop pk obs
              ({ s2 with checksum := pk.checksum }).oi
              { s2 with checksum := pk.checksum } = .error (err, sF) := hRes
          exact resolveLoop_err pk obs _ _ err sF hRes2 h2pass
        | ok us3 =>
          obtain ⟨u3, s3⟩ := us3
          cases u3
          simp only [hRes] at hP
          have hRes2 : resolveLoop pk obs
              ({ s2 with checksum := pk.checksum }).oi
              { s2 with checksum := pk.checksum } = .ok ((), s3) := hRes
          obtain ⟨hcore3, pairs, hplen, hptr, hpal, hppass⟩ :=
            resolveLoop_ok pk obs _ _ s3 hRes2
          have hpass3 : allPass obs s3.trace := by
            rw [hptr]
            apply allPass_append obs _ _ h2pass
            exact allPass_flat obs pairs hppass
          cases hFoot : emit obs (.onFooter s3.checksum) s3 with
          | error es =>
            obtain ⟨e0, se⟩ := es
            simp only [hFoot] at hP
            cases hP
            obtain ⟨hetr, hecomb, _, _⟩ := emit_error obs _ s3 err sF hFoot
            rw [hetr]
            exact errInvP_append_one obs err _ _ hpass3 hecomb
          | ok us4 =>
            obtain ⟨u4, s4⟩ := us4
            cases u4
            simp only [hFoot] at hP
            exact Except.noConfusion hP

end OnchainGit

namespace OnchainGit

open Packfile Storage

/-- Witness for C1: a concrete observer-free parse of the S1 pack
satisfies the full event protocol, and under an observer that rejects
every event, the parse aborts with the observer's error and the abort
discipline holds for the resulting trace. -/
theorem parse_observer_contract_witness :
    (Parse (packS1 true) [] c7bs0 = .ok (999, s1Final) ∧
     (999 = (packS1 true).checksum ∧
      allPass [] s1Final.trace ∧
      ∃ pairs : List (PEvent × PEvent),
        pairs.length = (packS1 true).count ∧
        s1Final.trace = .onHeader (packS1 true).count ::
          ((pairs.flatMap fun pr => [pr.1, pr.2]) ++
           [.onFooter (packS1 true).checksum]) ∧
        (∀ k, k < (packS1 true).count → ∃ e t sz hsh crc c,
           (packS1 true).entries[k]? = some e ∧
           pairs[k]? =
             some (.onInflatedObjectHeader t sz e.offset,
                   .onInflatedObjectContent hsh e.offset crc c)))) ∧
    (Parse (packS1 true) [rejObs] c7bs0 = .error (.custom 5, s1RejFinal) ∧
     errInvP [rejObs] (.custom 5) s1RejFinal.trace) :=
  ⟨⟨rfl, (parse_observer_contract (packS1 true) [] none c7bs0 rfl).1
      999 s1Final rfl⟩,
   ⟨rfl, (parse_observer_contract (packS1 true) [rejObs] none c7bs0 rfl).2
      (.custom 5) s1RejFinal rfl⟩⟩

end OnchainGit
